import Mathlib

/-!
# OpenBLT UART transport (`Target/Source/ARMCM3_STM32/uart.c`)

A shallow embedding of the bootloader's UART packet layer and theorems about it.

Conventions of the embedding

* Bytes and register values are natural numbers; a conversion to `blt_int8u` is an
  explicit `% 256`.
* A pointer to bytes (`blt_int8u *`) is a memory region `Nat → Nat` (the byte at each
  offset from the pointer), together with an offset where the source indexes it.
  The static array `xcpCtoReqPacket` is such a region; its declared size is
  `XCP_CTO_PACKET_LEN + 1`, so an access is inside the array when its offset is at
  most `XCP_CTO_PACKET_LEN`.  The region model of the statics describes the code as long
  as every store is inside the array; what a store past its end overwrites depends on
  where the statics lie, and `UartReceivePacketFlat` gives the code on one such layout.
* The volatile peripheral registers are the environment.  A receive poll is given the
  values the status and data registers would read as; a transmit run is given the
  list of values that successive reads of the status register return.
* Every function returns, next to its result, the list of externally visible events
  it performed, in program order.
* The configuration registers written by `UartInit` are a record of register values; a
  register reads back what was last written to it.
* `XCP_CTO_PACKET_LEN`, `BOOT_COM_TX_MAX_DATA`, `BOOT_CPU_SYSTEM_SPEED_KHZ` and
  `BOOT_COM_UART_BAUDRATE` come from configuration headers and are parameters.
-/

namespace OpenBLT

/-! ## Register bits (macro definitions of `uart.c`) -/

/-- Macro `UART_BIT_UE`: USART enable bit. -/
def UART_BIT_UE : Nat := 0x2000

/-- Macro `UART_BIT_TE`: transmitter enable bit. -/
def UART_BIT_TE : Nat := 0x0008

/-- Macro `UART_BIT_RE`: receiver enable bit. -/
def UART_BIT_RE : Nat := 0x0004

/-- Macro `UART_BIT_TXE`: transmit data register empty bit. -/
def UART_BIT_TXE : Nat := 0x0080

/-- Macro `UART_BIT_RXNE`: read data register not empty bit. -/
def UART_BIT_RXNE : Nat := 0x0020

/-! ## Events -/

/-- Externally visible actions of the driver, recorded in program order. -/
inductive Event where
  /-- a read of `UARTx->SR` that returned `v` -/
  | readSR (v : Nat)
  /-- a read of `UARTx->DR` that returned `v` -/
  | readDR (v : Nat)
  /-- a write of `v` to `UARTx->DR` -/
  | writeDR (v : Nat)
  /-- a call of `CopService()` -/
  | cop
  /-- a store of `v` through a byte pointer, at offset `idx` of its region -/
  | store (idx : Nat) (v : Nat)
  /-- a call of `CpuMemCopy` with length argument `count` -/
  | memCopy (count : Nat)
  deriving DecidableEq, Repr

/-- The test `(UARTx->SR & UART_BIT_RXNE) != 0` on a status value. -/
def rxReady (sr : Nat) : Bool := sr &&& UART_BIT_RXNE != 0

/-- The test `(UARTx->SR & UART_BIT_TXE) == 0` on a status value. -/
def txBusy (sr : Nat) : Bool := sr &&& UART_BIT_TXE == 0

/-- Memory after the store `mem[idx] = v`. -/
def memStore (mem : Nat → Nat) (idx v : Nat) : Nat → Nat :=
  fun i => if i = idx then v else mem i

/-! ## Receive path -/

/-- Result of `UartReceiveByte`: return value, the destination region afterwards, events. -/
structure RxByteResult where
  ret : Bool
  mem : Nat → Nat
  trace : List Event

/-- The function `UartReceiveByte(data)` with `data = &mem[idx]`; `sr` and `dr` are the
values the status and data registers read as during the call.

```c
if((UARTx->SR & UART_BIT_RXNE) != 0) { data[0] = UARTx->DR; return BLT_TRUE; }
return BLT_FALSE;
```
-/
def UartReceiveByte (mem : Nat → Nat) (idx : Nat) (sr dr : Nat) : RxByteResult :=
  if rxReady sr then
    { ret := true
      mem := memStore mem idx (dr % 256)
      trace := [Event.readSR sr, Event.readDR dr, Event.store idx (dr % 256)] }
  else
    { ret := false, mem := mem, trace := [Event.readSR sr] }

/-- Modelled from the spec: `CpuMemCopy(dest, src, len)` is declared outside `uart.c`;
the spec describes it as the bulk-copy capability `copy(dst, src, count)` that copies
`count` bytes from the source to the destination.  Here `src` is a region with a start
offset and the result is the destination region after the copy. -/
def CpuMemCopy (dest : Nat → Nat) (src : Nat → Nat) (srcOff : Nat) (count : Nat) : Nat → Nat :=
  fun i => if i < count then src (srcOff + i) else dest i

/-- The function-local statics of `UartReceivePacket`, each on its own.  This describes
the code as long as every store into `xcpCtoReqPacket` is at an index of at most
`XCP_CTO_PACKET_LEN`: a store past the end of the array is recorded in the trace, but
what it overwrites is not represented here (see `UartReceivePacketFlat`). -/
structure RxState where
  /-- the array `static blt_int8u xcpCtoReqPacket[XCP_CTO_PACKET_LEN+1]` -/
  xcpCtoReqPacket : Nat → Nat
  /-- the counter `static blt_int8u xcpCtoRxLength` -/
  xcpCtoRxLength : Nat
  /-- the flag `static blt_bool xcpCtoRxInProgress = BLT_FALSE` -/
  xcpCtoRxInProgress : Bool

/-- The statics at program start: zero-initialised, no packet in progress. -/
def RxState.init : RxState :=
  { xcpCtoReqPacket := fun _ => 0, xcpCtoRxLength := 0, xcpCtoRxInProgress := false }

/-- Result of one call of `UartReceivePacket`. -/
structure RxResult where
  /-- the returned `blt_bool` -/
  ret : Bool
  /-- the statics after the call -/
  st : RxState
  /-- the caller's buffer `data` after the call -/
  data : Nat → Nat
  /-- the events of the call -/
  trace : List Event

/-- The function `UartReceivePacket(data)`: one poll, in the state `st` of the statics.

```c
if (xcpCtoRxInProgress == BLT_FALSE) {
  if (UartReceiveByte(&xcpCtoReqPacket[0]) == BLT_TRUE) {
    xcpCtoRxInProgress = BLT_TRUE;
    xcpCtoRxLength = 0;
  }
} else {
  if (UartReceiveByte(&xcpCtoReqPacket[xcpCtoRxLength+1]) == BLT_TRUE) {
    xcpCtoRxLength++;
    if (xcpCtoRxLength == xcpCtoReqPacket[0]) {
      CpuMemCopy((blt_int32u)data, (blt_int32u)&xcpCtoReqPacket[1], xcpCtoRxLength);
      xcpCtoRxInProgress = BLT_FALSE;
      return BLT_TRUE;
    }
  }
}
return BLT_FALSE;
```
-/
def UartReceivePacket (st : RxState) (data : Nat → Nat) (sr dr : Nat) : RxResult :=
  if st.xcpCtoRxInProgress = false then
    let r := UartReceiveByte st.xcpCtoReqPacket 0 sr dr
    if r.ret = true then
      { ret := false
        st := { xcpCtoReqPacket := r.mem, xcpCtoRxLength := 0, xcpCtoRxInProgress := true }
        data := data
        trace := r.trace }
    else
      { ret := false
        st := { st with xcpCtoReqPacket := r.mem }
        data := data
        trace := r.trace }
  else
    let r := UartReceiveByte st.xcpCtoReqPacket (st.xcpCtoRxLength + 1) sr dr
    if r.ret = true then
      let len := (st.xcpCtoRxLength + 1) % 256
      if len = r.mem 0 then
        { ret := true
          st := { xcpCtoReqPacket := r.mem, xcpCtoRxLength := len, xcpCtoRxInProgress := false }
          data := CpuMemCopy data r.mem 1 len
          trace := r.trace ++ [Event.memCopy len] }
      else
        { ret := false
          st := { xcpCtoReqPacket := r.mem, xcpCtoRxLength := len, xcpCtoRxInProgress := true }
          data := data
          trace := r.trace }
    else
      { ret := false
        st := { st with xcpCtoReqPacket := r.mem }
        data := data
        trace := r.trace }

/-- The caller's polling loop: one call of `UartReceivePacket` per element of `ins`,
each element giving the status and data register values of that poll.  Returns the
list of results, in order; each poll starts from the statics and caller buffer left by
the previous one. -/
def pollAll (st : RxState) (data : Nat → Nat) : List (Nat × Nat) → List RxResult
  | [] => []
  | (sr, dr) :: ins =>
    let r := UartReceivePacket st data sr dr
    r :: pollAll r.st r.data ins

/-- The statics and caller buffer after a sequence of polls. -/
def pollEnd (st : RxState) (data : Nat → Nat) : List (Nat × Nat) → RxState × (Nat → Nat)
  | [] => (st, data)
  | (sr, dr) :: ins =>
    let r := UartReceivePacket st data sr dr
    pollEnd r.st r.data ins

/-- The poll with register values `sr`, `dr` that follows the polls `ins`. -/
def pollThen (st : RxState) (data : Nat → Nat) (ins : List (Nat × Nat)) (sr dr : Nat) :
    RxResult :=
  UartReceivePacket (pollEnd st data ins).1 (pollEnd st data ins).2 sr dr

/-! ## The statics in one memory region -/

/-- Result of one call of `UartReceivePacketFlat`. -/
structure FlatResult where
  /-- the returned `blt_bool` -/
  ret : Bool
  /-- the memory holding the statics after the call -/
  mem : Nat → Nat
  /-- the caller's buffer `data` after the call -/
  data : Nat → Nat

/-- The function `UartReceivePacket(data)` with its three statics placed in one memory
region `mem`, in declaration order and without gaps: `xcpCtoReqPacket` at offsets
`0..XCP_CTO_PACKET_LEN`, `xcpCtoRxLength` at `XCP_CTO_PACKET_LEN + 1` and
`xcpCtoRxInProgress` at `XCP_CTO_PACKET_LEN + 2`, with `BLT_FALSE` stored as 0 and
`BLT_TRUE` as 1.  The source does not fix where the statics lie; this is one placement
and it shows what a store past the end of the array can do.  Every access to a static
is an access to `mem`, in the order of the source (see `UartReceivePacket` for the C
text). -/
def UartReceivePacketFlat (XCP_CTO_PACKET_LEN : Nat) (mem : Nat → Nat) (data : Nat → Nat)
    (sr dr : Nat) : FlatResult :=
  if mem (XCP_CTO_PACKET_LEN + 2) = 0 then
    let r := UartReceiveByte mem 0 sr dr
    if r.ret = true then
      let m1 := memStore r.mem (XCP_CTO_PACKET_LEN + 2) 1
      let m2 := memStore m1 (XCP_CTO_PACKET_LEN + 1) 0
      { ret := false, mem := m2, data := data }
    else
      { ret := false, mem := r.mem, data := data }
  else
    let r := UartReceiveByte mem (mem (XCP_CTO_PACKET_LEN + 1) + 1) sr dr
    if r.ret = true then
      let m1 := memStore r.mem (XCP_CTO_PACKET_LEN + 1)
        ((r.mem (XCP_CTO_PACKET_LEN + 1) + 1) % 256)
      if m1 (XCP_CTO_PACKET_LEN + 1) = m1 0 then
        { ret := true
          mem := memStore m1 (XCP_CTO_PACKET_LEN + 2) 0
          data := CpuMemCopy data m1 1 (m1 (XCP_CTO_PACKET_LEN + 1)) }
      else
        { ret := false, mem := m1, data := data }
    else
      { ret := false, mem := r.mem, data := data }

/-- The caller's polling loop on the flat layout: one call of `UartReceivePacketFlat`
per element of `ins`. -/
def pollFlat (XCP_CTO_PACKET_LEN : Nat) (mem : Nat → Nat) (data : Nat → Nat) :
    List (Nat × Nat) → List FlatResult
  | [] => []
  | (sr, dr) :: ins =>
    let r := UartReceivePacketFlat XCP_CTO_PACKET_LEN mem data sr dr
    r :: pollFlat XCP_CTO_PACKET_LEN r.mem r.data ins

/-- The flat memory `mem` holds the statics `st`: the array slots, the counter and the
flag have the same values. -/
def FlatRel (XCP_CTO_PACKET_LEN : Nat) (st : RxState) (mem : Nat → Nat) : Prop :=
  (∀ i, i ≤ XCP_CTO_PACKET_LEN → mem i = st.xcpCtoReqPacket i) ∧
  mem (XCP_CTO_PACKET_LEN + 1) = st.xcpCtoRxLength ∧
  mem (XCP_CTO_PACKET_LEN + 2) = (if st.xcpCtoRxInProgress = true then 1 else 0)

/-! ## Transmit path -/

/-- Result of `UartTransmitByte`.  The status register is read from the list of
observations; `rest` is what the call left unread. -/
structure TxByteResult where
  /-- the returned `blt_bool`; `none` when the observations ended while the call was
  still running (it had not returned yet) -/
  ret : Option Bool
  /-- the events of the call -/
  trace : List Event
  /-- status observations not consumed by the call -/
  rest : List Nat

/-- The busy-wait loop of `UartTransmitByte`; each iteration reads the status register
once.

```c
while((UARTx->SR & UART_BIT_TXE) == 0) { CopService(); }
return BLT_TRUE;
```
-/
def txWait : List Nat → TxByteResult
  | [] => { ret := none, trace := [], rest := [] }
  | s :: srs =>
    if txBusy s then
      let r := txWait srs
      { ret := r.ret, trace := Event.readSR s :: Event.cop :: r.trace, rest := r.rest }
    else
      { ret := some true, trace := [Event.readSR s], rest := srs }

/-- The function `UartTransmitByte(data)`; the argument is the list of values that successive reads
of `UARTx->SR` return.

```c
if ((UARTx->SR & UART_BIT_TXE) == 0) { return BLT_FALSE; }
UARTx->DR = data;
while((UARTx->SR & UART_BIT_TXE) == 0) { CopService(); }
return BLT_TRUE;
```
-/
def UartTransmitByte (data : Nat) : List Nat → TxByteResult
  | [] => { ret := none, trace := [], rest := [] }
  | s :: srs =>
    if txBusy s then
      { ret := some false, trace := [Event.readSR s], rest := srs }
    else
      let r := txWait srs
      { ret := r.ret, trace := Event.readSR s :: Event.writeDR data :: r.trace, rest := r.rest }

/-- How a run of `UartTransmitPacket` ended. -/
inductive TxStatus where
  /-- the function returned to its caller -/
  | returned
  /-- the `ASSERT_RT` on the given line of `uart.c` failed -/
  | assertFailed (line : Nat)
  /-- the observations ended inside a `UartTransmitByte` call that had not returned -/
  | waiting
  deriving DecidableEq, Repr

/-- Modelled from the spec: the macro `ASSERT_RT(cond)` is defined outside `uart.c`;
the spec describes it as a fatal, abort-style assertion: when the condition is false
the operation is aborted on the spot and nothing after it runs.  The result is `none`
when the condition holds (execution continues) and `some line` when the assertion on
source line `line` fails. -/
def ASSERT_RT (line : Nat) (cond : Bool) : Option Nat :=
  if cond then none else some line

/-- Result of a run of `UartTransmitPacket`. -/
structure TxResult where
  status : TxStatus
  /-- the events of the run, up to its end -/
  trace : List Event
  /-- status observations not consumed by the run -/
  rest : List Nat

/-- The `for` loop of `UartTransmitPacket`.  The first numeric argument is the number
of iterations still to run, `len - data_index`, so the loop test `data_index < len` is
the test that it is not zero.

```c
for (data_index = 0; data_index < len; data_index++) {
  CopService();
  ASSERT_RT(UartTransmitByte(data[data_index]) == BLT_TRUE);
}
```
-/
def txLoop (data : Nat → Nat) : Nat → Nat → List Nat → TxResult
  | 0, _, srs => { status := TxStatus.returned, trace := [], rest := srs }
  | n + 1, data_index, srs =>
    let b := UartTransmitByte (data data_index) srs
    match b.ret with
    | none => { status := TxStatus.waiting, trace := Event.cop :: b.trace, rest := b.rest }
    | some ok =>
      match ASSERT_RT 147 (ok == true) with
      | some line =>
        { status := TxStatus.assertFailed line, trace := Event.cop :: b.trace, rest := b.rest }
      | none =>
        let r := txLoop data n (data_index + 1) b.rest
        { status := r.status, trace := Event.cop :: (b.trace ++ r.trace), rest := r.rest }

/-- The function `UartTransmitPacket(data, len)`; `srs` is the list of values that successive reads
of `UARTx->SR` return during the run.

```c
ASSERT_RT(len <= BOOT_COM_TX_MAX_DATA);
ASSERT_RT(UartTransmitByte(len) == BLT_TRUE);
for (data_index = 0; data_index < len; data_index++) { ... }
```
-/
def UartTransmitPacket (BOOT_COM_TX_MAX_DATA : Nat) (data : Nat → Nat) (len : Nat)
    (srs : List Nat) : TxResult :=
  match ASSERT_RT 136 (decide (len ≤ BOOT_COM_TX_MAX_DATA)) with
  | some line => { status := TxStatus.assertFailed line, trace := [], rest := srs }
  | none =>
    let b := UartTransmitByte len srs
    match b.ret with
    | none => { status := TxStatus.waiting, trace := b.trace, rest := b.rest }
    | some ok =>
      match ASSERT_RT 139 (ok == true) with
      | some line => { status := TxStatus.assertFailed line, trace := b.trace, rest := b.rest }
      | none =>
        let r := txLoop data len 0 b.rest
        { status := r.status, trace := b.trace ++ r.trace, rest := r.rest }

/-- The values written to the data register, in order. -/
def dataWrites : List Event → List Nat
  | [] => []
  | Event.writeDR v :: t => v :: dataWrites t
  | _ :: t => dataWrites t

/-- The number of `CopService` calls in a trace. -/
def copCount : List Event → Nat
  | [] => 0
  | Event.cop :: t => copCount t + 1
  | _ :: t => copCount t

/-- The caller's bytes `p` as the region a `blt_int8u *` to them points at. -/
def memOf (p : List Nat) : Nat → Nat := fun i => p.getD i 0

/-- The events of the busy-wait iterations that observe the status values `busy`:
each iteration is one status read followed by one `CopService` call. -/
def busyTrace : List Nat → List Event
  | [] => []
  | c :: t => Event.readSR c :: Event.cop :: busyTrace t

/-- The status observations of a sequence of byte transmissions, each given as the value
read by the entry check, the values read by the busy-wait iterations that go round again,
and the value read by the iteration that leaves the loop. -/
def obsStream : List (Nat × List Nat × Nat) → List Nat
  | [] => []
  | (s0, busy, s1) :: t => s0 :: (busy ++ s1 :: obsStream t)

/-- Whether every write to the data register in a trace comes directly after a status
read that had TXE set; the flag says whether the event before the trace was such a
read. -/
def writesGuarded : Bool → List Event → Bool
  | _, [] => true
  | ok, Event.writeDR _ :: t => ok && writesGuarded false t
  | _, Event.readSR s :: t => writesGuarded (!txBusy s) t
  | _, _ :: t => writesGuarded false t

/-- Whether `CopService` is called between any two writes to the data register in a
trace; the flag says whether a write may come next (no write has happened since the last
`CopService` call, or none at all). -/
def copSeparated : Bool → List Event → Bool
  | _, [] => true
  | ok, Event.writeDR _ :: t => ok && copSeparated false t
  | _, Event.cop :: t => copSeparated true t
  | ok, _ :: t => copSeparated ok t

/-! ## Descriptions of receive runs -/

/-- Whether, in the polls `ins` made from the state `st`, every byte consumed as a length
byte (a byte found by a poll made while no packet is in progress, converted to 8 bits)
lies in `1..MAX`. -/
def lengthBytesOk (MAX : Nat) (st : RxState) (data : Nat → Nat) : List (Nat × Nat) → Bool
  | [] => true
  | (sr, dr) :: ins =>
    (if st.xcpCtoRxInProgress = false ∧ rxReady sr = true then
        decide (1 ≤ dr % 256 ∧ dr % 256 ≤ MAX)
      else true) &&
    lengthBytesOk MAX (UartReceivePacket st data sr dr).st
      (UartReceivePacket st data sr dr).data ins

/-- The relation between the statics that holds as long as every length byte lies in
`1..MAX`: the declared length in slot 0 is at most `MAX` and a byte value; while a packet
is in progress the received count is below it; while none is, the count equals it. -/
def RxInv (MAX : Nat) (st : RxState) : Prop :=
  st.xcpCtoReqPacket 0 ≤ MAX ∧ st.xcpCtoReqPacket 0 < 256 ∧
  (st.xcpCtoRxInProgress = true → st.xcpCtoRxLength < st.xcpCtoReqPacket 0) ∧
  (st.xcpCtoRxInProgress = false → st.xcpCtoRxLength = st.xcpCtoReqPacket 0)

/-- The stores of a trace, as pairs of index and value, in order. -/
def storesOf : List Event → List (Nat × Nat)
  | [] => []
  | Event.store i v :: t => (i, v) :: storesOf t
  | _ :: t => storesOf t

/-- The stores of a sequence of polls, in order. -/
def allStores : List RxResult → List (Nat × Nat)
  | [] => []
  | r :: rs => storesOf r.trace ++ allStores rs

/-- The stores that put the payload bytes `bs` into the assembly buffer when `k` payload
bytes are already there: byte number `k+1` goes to index `k+1`, and so on. -/
def payloadStores (k : Nat) : List Nat → List (Nat × Nat)
  | [] => []
  | b :: bs => (k + 1, b % 256) :: payloadStores (k + 1) bs

/-- The bytes on the wire for a sequence of packets: each payload after its length. -/
def wire : List (List Nat) → List Nat
  | [] => []
  | p :: ps => p.length :: (p ++ wire ps)

/-- For each byte of `wire ps`, whether it is the last byte of a payload. -/
def lastMarks : List (List Nat) → List Bool
  | [] => []
  | p :: ps => List.replicate p.length false ++ true :: lastMarks ps

/-- The payload a poll hands to the caller: the first `xcpCtoRxLength` bytes of the
caller's buffer after the poll (the count given to `CpuMemCopy` when the poll returns
`BLT_TRUE`). -/
def delivered (r : RxResult) : List Nat :=
  (List.range r.st.xcpCtoRxLength).map r.data

/-- What a run of polls decodes: the polls that return `BLT_TRUE` hand over, in order,
exactly the payloads `payloads`; every poll that finds no byte returns `BLT_FALSE`; and
the return values of the polls that find a byte are, in order, `marks`. -/
def Decodes (st : RxState) (data : Nat → Nat) (ins : List (Nat × Nat))
    (payloads : List (List Nat)) (marks : List Bool) : Prop :=
  ((pollAll st data ins).filter (fun r => r.ret)).map delivered = payloads ∧
  (∀ x ∈ ins.zip (pollAll st data ins), rxReady x.1.1 = false → x.2.ret = false) ∧
  ((ins.zip (pollAll st data ins)).filter (fun x => rxReady x.1.1)).map (fun x => x.2.ret)
    = marks

/-! ## Initialisation -/

/-- The configuration registers of the peripheral that `UartInit` accesses (fields of
`tUartRegs`); each is a 16-bit register that reads back what was last written to it. -/
structure UartRegs where
  /-- baudrate register -/
  BRR : Nat
  /-- control register 1 -/
  CR1 : Nat
  /-- control register 2 -/
  CR2 : Nat
  /-- control register 3 -/
  CR3 : Nat
  /-- guard time and prescale register -/
  GTPR : Nat

/-- The divisor expression of `UartInit`,
`((BOOT_CPU_SYSTEM_SPEED_KHZ/2)*(blt_int32u)1000)/BOOT_COM_UART_BAUDRATE`: an integer
halving, a multiplication in unsigned 32-bit arithmetic and an integer division.  The
two configuration constants are parameters. -/
def baudDivisor (BOOT_CPU_SYSTEM_SPEED_KHZ BOOT_COM_UART_BAUDRATE : Nat) : Nat :=
  ((BOOT_CPU_SYSTEM_SPEED_KHZ / 2) * 1000 % 2 ^ 32) / BOOT_COM_UART_BAUDRATE

/-- The function `UartInit()`, as a change of the configuration registers; a value
assigned to a register is converted to its 16 bits.

```c
UARTx->BRR = 0;
UARTx->CR1 = 0;
UARTx->CR2 = 0;
UARTx->CR3 = 0;
UARTx->GTPR = 0;
UARTx->BRR = ((BOOT_CPU_SYSTEM_SPEED_KHZ/2)*(blt_int32u)1000)/BOOT_COM_UART_BAUDRATE;
UARTx->CR1 |= (UART_BIT_UE | UART_BIT_TE | UART_BIT_RE);
```
-/
def UartInit (BOOT_CPU_SYSTEM_SPEED_KHZ BOOT_COM_UART_BAUDRATE : Nat) (r : UartRegs) :
    UartRegs :=
  let r1 := { r with BRR := 0 }
  let r2 := { r1 with CR1 := 0 }
  let r3 := { r2 with CR2 := 0 }
  let r4 := { r3 with CR3 := 0 }
  let r5 := { r4 with GTPR := 0 }
  let r6 := { r5 with
    BRR := baudDivisor BOOT_CPU_SYSTEM_SPEED_KHZ BOOT_COM_UART_BAUDRATE % 2 ^ 16 }
  { r6 with CR1 := (r6.CR1 ||| (UART_BIT_UE ||| UART_BIT_TE ||| UART_BIT_RE)) % 2 ^ 16 }

/-- The divisor as the specification words it: `round((peripheralClockKHz * 1000) /
targetBaudRate)`, the exact quotient rounded to the nearest integer, where
`peripheralClockKHz = coreClockKHz / 2`. -/
def specDivisor (coreClockKHz targetBaudRate : Nat) : Int :=
  round ((((coreClockKHz : ℚ) / 2) * 1000) / targetBaudRate)

/-- Division of natural numbers rounded to the nearest integer (halves go up). -/
def roundDiv (a b : Nat) : Nat := (2 * a + b) / (2 * b)

/-! ## Basic facts about the receive path -/

theorem rxReady_eq_false_iff (sr : Nat) : rxReady sr = false ↔ sr &&& UART_BIT_RXNE = 0 := by
  simp [rxReady]

theorem rxReady_eq_true_iff (sr : Nat) : rxReady sr = true ↔ sr &&& UART_BIT_RXNE ≠ 0 := by
  simp [rxReady]

/-- A poll that finds no byte returns `BLT_FALSE` and changes nothing. -/
theorem rx_idle (st : RxState) (data : Nat → Nat) (sr dr : Nat) (h : rxReady sr = false) :
    UartReceivePacket st data sr dr
      = { ret := false, st := st, data := data, trace := [Event.readSR sr] } := by
  obtain ⟨buf, n, ip⟩ := st
  cases ip <;> simp [UartReceivePacket, UartReceiveByte, h]

/-- A poll that finds a byte while no packet is in progress. -/
theorem rx_length_step (st : RxState) (data : Nat → Nat) (sr dr : Nat)
    (hp : st.xcpCtoRxInProgress = false) (h : rxReady sr = true) :
    UartReceivePacket st data sr dr
      = { ret := false
          st := { xcpCtoReqPacket := memStore st.xcpCtoReqPacket 0 (dr % 256)
                  xcpCtoRxLength := 0
                  xcpCtoRxInProgress := true }
          data := data
          trace := [Event.readSR sr, Event.readDR dr, Event.store 0 (dr % 256)] } := by
  simp [UartReceivePacket, UartReceiveByte, h, hp]

/-- A poll that finds the last byte of the packet in progress. -/
theorem rx_last_step (st : RxState) (data : Nat → Nat) (sr dr : Nat)
    (hp : st.xcpCtoRxInProgress = true) (h : rxReady sr = true)
    (hl : (st.xcpCtoRxLength + 1) % 256 = st.xcpCtoReqPacket 0) :
    UartReceivePacket st data sr dr
      = { ret := true
          st := { xcpCtoReqPacket :=
                    memStore st.xcpCtoReqPacket (st.xcpCtoRxLength + 1) (dr % 256)
                  xcpCtoRxLength := (st.xcpCtoRxLength + 1) % 256
                  xcpCtoRxInProgress := false }
          data := CpuMemCopy data
                    (memStore st.xcpCtoReqPacket (st.xcpCtoRxLength + 1) (dr % 256)) 1
                    ((st.xcpCtoRxLength + 1) % 256)
          trace := [Event.readSR sr, Event.readDR dr,
                    Event.store (st.xcpCtoRxLength + 1) (dr % 256),
                    Event.memCopy ((st.xcpCtoRxLength + 1) % 256)] } := by
  simp [UartReceivePacket, UartReceiveByte, h, hp, memStore, hl]

/-- A poll that finds a byte of the packet in progress that is not its last. -/
theorem rx_middle_step (st : RxState) (data : Nat → Nat) (sr dr : Nat)
    (hp : st.xcpCtoRxInProgress = true) (h : rxReady sr = true)
    (hl : (st.xcpCtoRxLength + 1) % 256 ≠ st.xcpCtoReqPacket 0) :
    UartReceivePacket st data sr dr
      = { ret := false
          st := { xcpCtoReqPacket :=
                    memStore st.xcpCtoReqPacket (st.xcpCtoRxLength + 1) (dr % 256)
                  xcpCtoRxLength := (st.xcpCtoRxLength + 1) % 256
                  xcpCtoRxInProgress := true }
          data := data
          trace := [Event.readSR sr, Event.readDR dr,
                    Event.store (st.xcpCtoRxLength + 1) (dr % 256)] } := by
  simp [UartReceivePacket, UartReceiveByte, h, hp, memStore, hl]

/-- Polls that find no byte leave the statics and the caller's buffer as they were. -/
theorem pollEnd_idle (st : RxState) (data : Nat → Nat) (ins : List (Nat × Nat))
    (h : ∀ x ∈ ins, rxReady x.1 = false) : pollEnd st data ins = (st, data) := by
  induction ins with
  | nil => rfl
  | cons x ins ih =>
    obtain ⟨sr, dr⟩ := x
    have hx : rxReady sr = false := h (sr, dr) (List.mem_cons_self _ _)
    simp only [pollEnd, rx_idle st data sr dr hx]
    exact ih (fun y hy => h y (List.mem_cons_of_mem _ hy))

/-- Polls that find no byte all return `BLT_FALSE`. -/
theorem pollAll_idle (st : RxState) (data : Nat → Nat) (ins : List (Nat × Nat))
    (h : ∀ x ∈ ins, rxReady x.1 = false) : ∀ r ∈ pollAll st data ins, r.ret = false := by
  induction ins with
  | nil => simp [pollAll]
  | cons x ins ih =>
    obtain ⟨sr, dr⟩ := x
    have hx : rxReady sr = false := h (sr, dr) (List.mem_cons_self _ _)
    intro r hr
    simp only [pollAll, rx_idle st data sr dr hx, List.mem_cons] at hr
    rcases hr with hr | hr
    · rw [hr]
    · exact ih (fun y hy => h y (List.mem_cons_of_mem _ hy)) r hr

/-- What a poll returning `BLT_TRUE` says about the state before it and the one after. -/
theorem rx_true_inv (st : RxState) (data : Nat → Nat) (sr dr : Nat)
    (h : (UartReceivePacket st data sr dr).ret = true) :
    st.xcpCtoRxInProgress = true ∧ rxReady sr = true ∧
      (st.xcpCtoRxLength + 1) % 256 = st.xcpCtoReqPacket 0 := by
  cases hp : st.xcpCtoRxInProgress with
  | false =>
    cases hr : rxReady sr with
    | false => rw [rx_idle st data sr dr hr] at h; simp at h
    | true => rw [rx_length_step st data sr dr hp hr] at h; simp at h
  | true =>
    cases hr : rxReady sr with
    | false => rw [rx_idle st data sr dr hr] at h; simp at h
    | true =>
      by_cases hl : (st.xcpCtoRxLength + 1) % 256 = st.xcpCtoReqPacket 0
      · exact ⟨rfl, rfl, hl⟩
      · rw [rx_middle_step st data sr dr hp hr hl] at h; simp at h

/-! ## C3: a poll without data is a no-op -/

/-- C3: for every state of the statics and every caller buffer, a call of
`UartReceivePacket` made while the RXNE flag reads clear returns `BLT_FALSE`, leaves the
in-progress flag, the received count, the assembly buffer and the caller's buffer
unchanged, and its only access to the peripheral is the one status read: it does not
read the data register and stores nothing. -/
theorem C3_idle_poll_is_noop (st : RxState) (data : Nat → Nat) (sr dr : Nat)
    (h : sr &&& UART_BIT_RXNE = 0) :
    (UartReceivePacket st data sr dr).ret = false ∧
    (UartReceivePacket st data sr dr).st.xcpCtoRxInProgress = st.xcpCtoRxInProgress ∧
    (UartReceivePacket st data sr dr).st.xcpCtoRxLength = st.xcpCtoRxLength ∧
    (UartReceivePacket st data sr dr).st.xcpCtoReqPacket = st.xcpCtoReqPacket ∧
    (UartReceivePacket st data sr dr).data = data ∧
    (UartReceivePacket st data sr dr).trace = [Event.readSR sr] ∧
    (∀ v, Event.readDR v ∉ (UartReceivePacket st data sr dr).trace) ∧
    (UartReceiveByte st.xcpCtoReqPacket
        (if st.xcpCtoRxInProgress = false then 0 else st.xcpCtoRxLength + 1) sr dr).trace
      = [Event.readSR sr] := by
  have hr : rxReady sr = false := (rxReady_eq_false_iff sr).2 h
  rw [rx_idle st data sr dr hr]
  simp [UartReceiveByte, hr]

/-- C3 at a concrete state: a packet of declared length 3 with one byte received, polled
while the status register reads `0x80` (TXE set, RXNE clear). -/
theorem C3_idle_poll_is_noop_witness :
    (0x80 &&& UART_BIT_RXNE = 0) ∧
    (UartReceivePacket ⟨memOf [3, 0x11], 1, true⟩ (memOf [9, 9, 9]) 0x80 0x22).ret = false ∧
    (UartReceivePacket ⟨memOf [3, 0x11], 1, true⟩ (memOf [9, 9, 9]) 0x80 0x22).st.xcpCtoRxLength
      = 1 ∧
    (UartReceivePacket ⟨memOf [3, 0x11], 1, true⟩ (memOf [9, 9, 9]) 0x80 0x22).trace
      = [Event.readSR 0x80] :=
  ⟨by decide,
   (C3_idle_poll_is_noop ⟨memOf [3, 0x11], 1, true⟩ (memOf [9, 9, 9]) 0x80 0x22 (by decide)).1,
   (C3_idle_poll_is_noop ⟨memOf [3, 0x11], 1, true⟩ (memOf [9, 9, 9]) 0x80 0x22
      (by decide)).2.2.1,
   (C3_idle_poll_is_noop ⟨memOf [3, 0x11], 1, true⟩ (memOf [9, 9, 9]) 0x80 0x22
      (by decide)).2.2.2.2.2.1⟩

/-! ## C4: the byte after a completed packet is the next length byte -/

/-- C4: whenever a call of `UartReceivePacket` returns `BLT_TRUE` it leaves
`xcpCtoRxInProgress` false.  After any number of polls that find no byte (all of which
return `BLT_FALSE`), the poll that finds the next byte `b` stores it in slot 0 of the
assembly buffer, sets the received count to 0, sets `xcpCtoRxInProgress`, returns
`BLT_FALSE`, and neither changes the caller's buffer nor calls `CpuMemCopy`. -/
theorem C4_back_to_back_reset (st : RxState) (data : Nat → Nat) (sr dr : Nat)
    (idle : List (Nat × Nat)) (sr2 b : Nat)
    (h : (UartReceivePacket st data sr dr).ret = true)
    (hidle : ∀ x ∈ idle, x.1 &&& UART_BIT_RXNE = 0)
    (h2 : sr2 &&& UART_BIT_RXNE ≠ 0) (hb : b < 256) :
    (UartReceivePacket st data sr dr).st.xcpCtoRxInProgress = false ∧
    (∀ r ∈ pollAll (UartReceivePacket st data sr dr).st (UartReceivePacket st data sr dr).data
        idle, r.ret = false) ∧
    (pollThen (UartReceivePacket st data sr dr).st (UartReceivePacket st data sr dr).data
        idle sr2 b).ret = false ∧
    (pollThen (UartReceivePacket st data sr dr).st (UartReceivePacket st data sr dr).data
        idle sr2 b).st.xcpCtoReqPacket 0 = b ∧
    (pollThen (UartReceivePacket st data sr dr).st (UartReceivePacket st data sr dr).data
        idle sr2 b).st.xcpCtoRxLength = 0 ∧
    (pollThen (UartReceivePacket st data sr dr).st (UartReceivePacket st data sr dr).data
        idle sr2 b).st.xcpCtoRxInProgress = true ∧
    (pollThen (UartReceivePacket st data sr dr).st (UartReceivePacket st data sr dr).data
        idle sr2 b).data = (UartReceivePacket st data sr dr).data ∧
    (pollThen (UartReceivePacket st data sr dr).st (UartReceivePacket st data sr dr).data
        idle sr2 b).trace = [Event.readSR sr2, Event.readDR b, Event.store 0 b] := by
  obtain ⟨hp, hr, hl⟩ := rx_true_inv st data sr dr h
  have hidle2 : ∀ x ∈ idle, rxReady x.1 = false :=
    fun x hx => (rxReady_eq_false_iff x.1).2 (hidle x hx)
  have hr2 : rxReady sr2 = true := (rxReady_eq_true_iff sr2).2 h2
  have hmod : b % 256 = b := Nat.mod_eq_of_lt hb
  have hdone : (UartReceivePacket st data sr dr).st.xcpCtoRxInProgress = false := by
    rw [rx_last_step st data sr dr hp hr hl]
  refine ⟨hdone, pollAll_idle _ _ idle hidle2, ?_⟩
  unfold pollThen
  rw [pollEnd_idle _ _ idle hidle2]
  rw [rx_length_step _ _ sr2 b hdone hr2]
  simp [memStore, hmod]

/-- C4 on the two-byte stream `1, 0xAA` followed by an idle poll and the byte `2`: the
second poll completes the one-byte packet, the poll that finds `2` starts the next. -/
theorem C4_back_to_back_reset_witness :
    (UartReceivePacket ⟨memOf [1], 0, true⟩ (memOf []) 0x20 0xAA).ret = true ∧
    (pollThen (UartReceivePacket ⟨memOf [1], 0, true⟩ (memOf []) 0x20 0xAA).st
        (UartReceivePacket ⟨memOf [1], 0, true⟩ (memOf []) 0x20 0xAA).data
        [(0x80, 0)] 0x20 2).st.xcpCtoReqPacket 0 = 2 :=
  ⟨by decide,
   (C4_back_to_back_reset ⟨memOf [1], 0, true⟩ (memOf []) 0x20 0xAA [(0x80, 0)] 0x20 2
      (by decide) (by decide) (by decide) (by decide)).2.2.2.1⟩

/-! ## C5: a length byte of zero -/

/-- Storing byte `k` of `P` in slot `k+1` extends the part of `P` held in the assembly
buffer from `k` bytes to `k+1`. -/
theorem memStore_payload (buf : Nat → Nat) (P : List Nat) (k b : Nat) (hkl : k < P.length)
    (hb : b = P[k]) (hbuf : ∀ i, i < k → buf (i + 1) = P.getD i 0) :
    ∀ i, i < k + 1 → memStore buf (k + 1) b (i + 1) = P.getD i 0 := by
  intro i hi
  unfold memStore
  by_cases h : i = k
  · rw [if_pos (by omega), h, hb, List.getD_eq_getElem _ _ hkl]
  · rw [if_neg (by omega)]
    exact hbuf i (by omega)

/-- Collecting the rest of a packet: with `k` payload bytes of `P` already in the
assembly buffer and `n + 1` still to come, feeding those one per poll gives `n` polls
returning `BLT_FALSE`, then one returning `BLT_TRUE`, after which the caller's buffer
starts with `P`. -/
theorem collect_payload (P : List Nat) (hP : ∀ b ∈ P, b < 256) (hL : P.length ≤ 255) :
    ∀ (n k : Nat) (st : RxState) (data : Nat → Nat) (ins : List (Nat × Nat)),
      k + (n + 1) = P.length → st.xcpCtoRxInProgress = true → st.xcpCtoRxLength = k →
      st.xcpCtoReqPacket 0 = P.length → (∀ i, i < k → st.xcpCtoReqPacket (i + 1) = P.getD i 0) →
      ins.map Prod.snd = P.drop k → (∀ x ∈ ins, rxReady x.1 = true) →
      (pollAll st data ins).map (fun r => r.ret) = List.replicate n false ++ [true] ∧
      (∀ i, i < P.length → (pollEnd st data ins).2 i = P.getD i 0) ∧
      (pollEnd st data ins).1.xcpCtoRxInProgress = false ∧
      (∀ r ∈ pollAll st data ins, ∀ i v, Event.store i v ∈ r.trace → 1 ≤ i ∧ i ≤ P.length) := by
  intro n
  induction n with
  | zero =>
    intro k st data ins hk hp hlen h0 hbuf hins hrdy
    have hkl : k < P.length := by omega
    rw [List.drop_eq_getElem_cons hkl, List.drop_of_length_le (by omega)] at hins
    match ins, hins, hrdy with
    | [(sr, b)], hins, hrdy =>
      have hx : rxReady sr = true := hrdy (sr, b) (List.mem_cons_self _ _)
      have hb : b = P[k] := by simpa using hins
      have hb256 : b % 256 = b := Nat.mod_eq_of_lt (hP b (hb ▸ List.getElem_mem hkl))
      have hmod : (st.xcpCtoRxLength + 1) % 256 = k + 1 := by
        rw [hlen, Nat.mod_eq_of_lt (by omega)]
      have hl : (st.xcpCtoRxLength + 1) % 256 = st.xcpCtoReqPacket 0 := by
        rw [hmod, h0]; omega
      simp only [pollAll, pollEnd, rx_last_step st data sr b hp hx hl, List.map_cons,
        List.map_nil, List.replicate_zero, List.nil_append, true_and]
      refine ⟨?_, ?_⟩
      · intro i hi
        simp only [CpuMemCopy, hmod, hb256, hlen]
        rw [if_pos (by omega), Nat.add_comm 1 i]
        exact memStore_payload _ P k b hkl hb hbuf i (by omega)
      · intro r hr i v hiv
        simp only [List.mem_singleton] at hr
        subst hr
        simp only [List.mem_cons, Event.store.injEq, List.mem_singleton, reduceCtorEq,
          false_or, or_false, List.not_mem_nil] at hiv
        omega
  | succ n ih =>
    intro k st data ins hk hp hlen h0 hbuf hins hrdy
    have hkl : k < P.length := by omega
    rw [List.drop_eq_getElem_cons hkl] at hins
    match ins, hins, hrdy with
    | (sr, b) :: ins, hins, hrdy =>
      have hx : rxReady sr = true := hrdy (sr, b) (List.mem_cons_self _ _)
      simp only [List.map_cons, List.cons.injEq] at hins
      obtain ⟨hb, hins⟩ := hins
      have hb256 : b % 256 = b := Nat.mod_eq_of_lt (hP b (hb ▸ List.getElem_mem hkl))
      have hmod : (st.xcpCtoRxLength + 1) % 256 = k + 1 := by
        rw [hlen, Nat.mod_eq_of_lt (by omega)]
      have hl : (st.xcpCtoRxLength + 1) % 256 ≠ st.xcpCtoReqPacket 0 := by
        rw [hmod, h0]; omega
      simp only [pollAll, pollEnd, rx_middle_step st data sr b hp hx hl, List.map_cons,
        List.replicate_succ, List.cons_append, List.cons.injEq, true_and]
      have key := ih (k + 1)
        { xcpCtoReqPacket := memStore st.xcpCtoReqPacket (st.xcpCtoRxLength + 1) (b % 256)
          xcpCtoRxLength := (st.xcpCtoRxLength + 1) % 256
          xcpCtoRxInProgress := true } data ins (by omega) rfl hmod
        (by simp [memStore, h0])
        (by
          intro i hi
          simp only [hb256, hlen]
          exact memStore_payload _ P k b hkl hb hbuf i hi)
        hins (fun y hy => hrdy y (List.mem_cons_of_mem _ hy))
      obtain ⟨k1, k2, k3, k4⟩ := key
      refine ⟨k1, k2, k3, ?_⟩
      intro r hr i v hiv
      simp only [List.mem_cons] at hr
      rcases hr with hr | hr
      · subst hr
        simp only [List.mem_cons, Event.store.injEq, List.mem_singleton, reduceCtorEq,
          false_or, or_false, List.not_mem_nil] at hiv
        omega
      · exact k4 r hr i v hiv

/-- C1 (as stated) fails for the empty payload: from the initial state, the byte
sequence `[len(p)] ++ p = [0]` fed one byte per poll is a single poll, and it returns
`BLT_FALSE`; no poll returns `BLT_TRUE`. -/
theorem C1_counterexample :
    (pollAll RxState.init (memOf [])
        ((([] : List Nat).length :: ([] : List Nat)).map (fun b => (0x20, b)))).map
      (fun r => r.ret) = [false] := by
  decide

/-- C1 (amended): starting with no packet in progress, for every payload `p` of bytes
with `1 <= len(p) <= XCP_CTO_PACKET_LEN` (and `len(p)` a byte value), feeding the bytes
`[len(p)] ++ p` to `UartReceivePacket`, one per poll, each poll finding RXNE set, gives
`len(p)` polls that return `BLT_FALSE` followed by one that returns `BLT_TRUE` (the poll
consuming the last payload byte); after it no packet is in progress and the caller's
buffer holds exactly `p` in its first `len(p)` positions; and every store into the
assembly buffer made on the way is at an index within `0..XCP_CTO_PACKET_LEN`. -/
theorem C1_receive_round_trip (XCP_CTO_PACKET_LEN : Nat) (p : List Nat)
    (st : RxState) (data : Nat → Nat) (ins : List (Nat × Nat))
    (hbytes : ∀ b ∈ p, b < 256) (hlenbyte : p.length < 256)
    (h1 : 1 ≤ p.length) (h2 : p.length ≤ XCP_CTO_PACKET_LEN)
    (hst : st.xcpCtoRxInProgress = false)
    (hready : ∀ x ∈ ins, x.1 &&& UART_BIT_RXNE ≠ 0)
    (hins : ins.map Prod.snd = p.length :: p) :
    (pollAll st data ins).map (fun r => r.ret) = List.replicate p.length false ++ [true] ∧
    (List.range p.length).map (pollEnd st data ins).2 = p ∧
    (pollEnd st data ins).1.xcpCtoRxInProgress = false ∧
    (∀ r ∈ pollAll st data ins, ∀ i v, Event.store i v ∈ r.trace → i ≤ XCP_CTO_PACKET_LEN) := by
  have hrdy : ∀ x ∈ ins, rxReady x.1 = true :=
    fun x hx => (rxReady_eq_true_iff x.1).2 (hready x hx)
  match ins, hins, hrdy with
  | (sr, b) :: ins, hins, hrdy =>
    have hx : rxReady sr = true := hrdy (sr, b) (List.mem_cons_self _ _)
    simp only [List.map_cons, List.cons.injEq] at hins
    obtain ⟨hb, hins⟩ := hins
    have hb256 : b % 256 = p.length := by rw [hb]; exact Nat.mod_eq_of_lt hlenbyte
    obtain ⟨n, hn⟩ : ∃ n, p.length = n + 1 := ⟨p.length - 1, by omega⟩
    have key := collect_payload p hbytes (by omega) n 0
      { xcpCtoReqPacket := memStore st.xcpCtoReqPacket 0 (b % 256)
        xcpCtoRxLength := 0
        xcpCtoRxInProgress := true } data ins (by omega) rfl rfl
      (by simp [memStore, hb256]) (by intro i hi; omega) (by simpa using hins)
      (fun y hy => hrdy y (List.mem_cons_of_mem _ hy))
    simp only [pollAll, pollEnd, rx_length_step st data sr b hst hx, List.map_cons]
    obtain ⟨k1, k2, k3, k4⟩ := key
    refine ⟨?_, ?_, k3, ?_⟩
    · rw [k1, hn, List.replicate_succ, List.cons_append]
    · apply List.ext_getElem
      · simp
      · intro i h1 h2
        simp only [List.getElem_map, List.getElem_range]
        rw [k2 i h2, List.getD_eq_getElem _ _ h2]
    · intro r hr i v hiv
      simp only [List.mem_cons] at hr
      rcases hr with hr | hr
      · subst hr
        simp only [List.mem_cons, Event.store.injEq, List.mem_singleton, reduceCtorEq,
          false_or, or_false, List.not_mem_nil] at hiv
        omega
      · exact Nat.le_trans (k4 r hr i v hiv).2 h2

/-- C1 (amended) for the payload `[0x11, 0x22]` from the initial state. -/
theorem C1_receive_round_trip_witness :
    (pollAll RxState.init (memOf []) [(0x20, 2), (0x20, 0x11), (0x20, 0x22)]).map
      (fun r => r.ret) = List.replicate [0x11, 0x22].length false ++ [true] ∧
    (List.range [0x11, 0x22].length).map
      (pollEnd RxState.init (memOf []) [(0x20, 2), (0x20, 0x11), (0x20, 0x22)]).2
      = [0x11, 0x22] ∧
    (pollEnd RxState.init (memOf []) [(0x20, 2), (0x20, 0x11), (0x20, 0x22)]).1.xcpCtoRxInProgress
      = false ∧
    (∀ r ∈ pollAll RxState.init (memOf []) [(0x20, 2), (0x20, 0x11), (0x20, 0x22)],
      ∀ i v, Event.store i v ∈ r.trace → i ≤ 64) :=
  C1_receive_round_trip 64 [0x11, 0x22] RxState.init (memOf [])
    [(0x20, 2), (0x20, 0x11), (0x20, 0x22)] (by decide) (by decide) (by decide) (by decide) rfl
    (by decide) (by decide)

/-! ## Basic facts about the transmit path -/

theorem txBusy_eq_true_iff (s : Nat) : txBusy s = true ↔ s &&& UART_BIT_TXE = 0 := by
  simp [txBusy]

theorem txBusy_eq_false_iff (s : Nat) : txBusy s = false ↔ s &&& UART_BIT_TXE ≠ 0 := by
  simp [txBusy]

theorem dataWrites_append (a b : List Event) :
    dataWrites (a ++ b) = dataWrites a ++ dataWrites b := by
  induction a with
  | nil => rfl
  | cons e a ih => cases e <;> simp [dataWrites, ih]

theorem copCount_append (a b : List Event) : copCount (a ++ b) = copCount a + copCount b := by
  induction a with
  | nil => simp [copCount]
  | cons e a ih => cases e <;> simp [copCount, ih, Nat.add_right_comm]

theorem dataWrites_busyTrace (busy : List Nat) : dataWrites (busyTrace busy) = [] := by
  induction busy with
  | nil => rfl
  | cons c t ih => simp [busyTrace, dataWrites, ih]

theorem copCount_busyTrace (busy : List Nat) : copCount (busyTrace busy) = busy.length := by
  induction busy with
  | nil => rfl
  | cons c t ih => simp [busyTrace, copCount, ih]

/-- The busy-wait loop leaves when it observes TXE set, after one `CopService` call for
each observation that had it clear. -/
theorem txWait_ready (busy : List Nat) (s : Nat) (rest : List Nat)
    (hb : ∀ c ∈ busy, txBusy c = true) (hs : txBusy s = false) :
    txWait (busy ++ s :: rest)
      = { ret := some true, trace := busyTrace busy ++ [Event.readSR s], rest := rest } := by
  induction busy with
  | nil => simp [txWait, hs, busyTrace]
  | cons c busy ih =>
    have hc := hb c (List.mem_cons_self _ _)
    simp [txWait, hc, busyTrace, ih (fun y hy => hb y (List.mem_cons_of_mem _ hy))]

/-- Result of `UartTransmitByte` on a peripheral ready at entry and ready again after the
observations `busy`. -/
theorem txByte_ready (b s0 : Nat) (busy : List Nat) (s1 : Nat) (rest : List Nat)
    (h0 : txBusy s0 = false) (hb : ∀ c ∈ busy, txBusy c = true) (h1 : txBusy s1 = false) :
    UartTransmitByte b (s0 :: (busy ++ s1 :: rest))
      = { ret := some true
          trace := Event.readSR s0 :: Event.writeDR b :: (busyTrace busy ++ [Event.readSR s1])
          rest := rest } := by
  simp [UartTransmitByte, h0, txWait_ready busy s1 rest hb h1]

/-- The busy-wait loop never returns `BLT_FALSE` and never writes the data register. -/
theorem txWait_facts (srs : List Nat) :
    (txWait srs).ret ≠ some false ∧ dataWrites (txWait srs).trace = [] ∧
      writesGuarded false (txWait srs).trace = true := by
  induction srs with
  | nil => simp [txWait, dataWrites, writesGuarded]
  | cons s srs ih =>
    cases hs : txBusy s <;> simp [txWait, hs, dataWrites, writesGuarded, ih]

/-- The three ways a call of `UartTransmitByte` can stand, with the data-register writes
of each. -/
theorem txByte_cases (b : Nat) (srs : List Nat) :
    ((UartTransmitByte b srs).ret = none ∧
        (dataWrites (UartTransmitByte b srs).trace = [] ∨
         dataWrites (UartTransmitByte b srs).trace = [b])) ∨
    ((UartTransmitByte b srs).ret = some false ∧
        dataWrites (UartTransmitByte b srs).trace = []) ∨
    ((UartTransmitByte b srs).ret = some true ∧
        dataWrites (UartTransmitByte b srs).trace = [b]) := by
  cases srs with
  | nil => simp [UartTransmitByte, dataWrites]
  | cons s srs =>
    obtain ⟨h1, h2, _⟩ := txWait_facts srs
    cases hs : txBusy s with
    | true => simp [UartTransmitByte, hs, dataWrites]
    | false =>
      simp only [UartTransmitByte, hs, dataWrites, h2]
      cases hr : (txWait srs).ret with
      | none => simp
      | some v =>
        cases v with
        | false => exact absurd hr h1
        | true => simp

/-! ## C9: `UartTransmitByte` when the peripheral is not ready -/

/-- C9: for every byte `b`, with `s` the value the entry check reads from the status
register: if TXE is clear in `s`, `UartTransmitByte(b)` returns `BLT_FALSE` after that one
status read, and has neither written the data register nor called `CopService`; and a call
returns `BLT_FALSE` only if TXE was clear in `s`. -/
theorem C9_transmit_byte_not_ready (b s : Nat) (rest : List Nat) :
    (s &&& UART_BIT_TXE = 0 →
      (UartTransmitByte b (s :: rest)).ret = some false ∧
      (UartTransmitByte b (s :: rest)).trace = [Event.readSR s] ∧
      (UartTransmitByte b (s :: rest)).rest = rest ∧
      dataWrites (UartTransmitByte b (s :: rest)).trace = [] ∧
      copCount (UartTransmitByte b (s :: rest)).trace = 0) ∧
    ((UartTransmitByte b (s :: rest)).ret = some false → s &&& UART_BIT_TXE = 0) := by
  constructor
  · intro h
    have hs : txBusy s = true := (txBusy_eq_true_iff s).2 h
    simp [UartTransmitByte, hs, dataWrites, copCount]
  · intro h
    cases hs : txBusy s with
    | true => exact (txBusy_eq_true_iff s).1 hs
    | false =>
      simp only [UartTransmitByte, hs] at h
      exact absurd h (txWait_facts rest).1

/-- C9 for the byte `0x41` and the status value `0x20` (RXNE set, TXE clear). -/
theorem C9_transmit_byte_not_ready_witness :
    0x20 &&& UART_BIT_TXE = 0 ∧
    (UartTransmitByte 0x41 (0x20 :: [0x80, 0x80])).ret = some false ∧
    (UartTransmitByte 0x41 (0x20 :: [0x80, 0x80])).trace = [Event.readSR 0x20] ∧
    (UartTransmitByte 0x41 (0x20 :: [0x80, 0x80])).rest = [0x80, 0x80] ∧
    dataWrites (UartTransmitByte 0x41 (0x20 :: [0x80, 0x80])).trace = [] ∧
    copCount (UartTransmitByte 0x41 (0x20 :: [0x80, 0x80])).trace = 0 :=
  ⟨by decide, (C9_transmit_byte_not_ready 0x41 0x20 [0x80, 0x80]).1 (by decide)⟩

/-! ## C10: `UartTransmitByte` when the peripheral is ready -/

/-- C10: for every byte `b`, if the entry check reads the status register with TXE set,
the next `n` reads (the list `busy`) have it clear and the read after them has it set,
then `UartTransmitByte(b)` returns `BLT_TRUE` (it terminates, having consumed exactly
those `n + 2` status reads); its events are the entry read, the write of `b`, then `n`
busy-wait iterations of one status read and one `CopService` call each, then the status
read that observed TXE set; so `b` is written exactly once, before any waiting, and
`CopService` is called exactly `n` times. -/
theorem C10_transmit_byte_success (b s0 : Nat) (busy : List Nat) (s1 : Nat) (rest : List Nat)
    (h0 : s0 &&& UART_BIT_TXE ≠ 0) (hbusy : ∀ c ∈ busy, c &&& UART_BIT_TXE = 0)
    (h1 : s1 &&& UART_BIT_TXE ≠ 0) :
    (UartTransmitByte b (s0 :: (busy ++ s1 :: rest))).ret = some true ∧
    (UartTransmitByte b (s0 :: (busy ++ s1 :: rest))).rest = rest ∧
    (UartTransmitByte b (s0 :: (busy ++ s1 :: rest))).trace
      = Event.readSR s0 :: Event.writeDR b :: (busyTrace busy ++ [Event.readSR s1]) ∧
    dataWrites (UartTransmitByte b (s0 :: (busy ++ s1 :: rest))).trace = [b] ∧
    copCount (UartTransmitByte b (s0 :: (busy ++ s1 :: rest))).trace = busy.length ∧
    (UartTransmitByte b (s0 :: (busy ++ s1 :: rest))).trace.getLast? = some (Event.readSR s1) := by
  rw [txByte_ready b s0 busy s1 rest ((txBusy_eq_false_iff s0).2 h0)
    (fun c hc => (txBusy_eq_true_iff c).2 (hbusy c hc)) ((txBusy_eq_false_iff s1).2 h1)]
  refine ⟨rfl, rfl, rfl, ?_, ?_, ?_⟩
  · simp [dataWrites, dataWrites_append, dataWrites_busyTrace]
  · simp [copCount, copCount_append, copCount_busyTrace]
  · rw [show Event.readSR s0 :: Event.writeDR b :: (busyTrace busy ++ [Event.readSR s1])
        = (Event.readSR s0 :: Event.writeDR b :: busyTrace busy) ++ [Event.readSR s1] from rfl]
    exact List.getLast?_concat _

/-- C10 for the byte `0x41` with two not-ready observations during the wait. -/
theorem C10_transmit_byte_success_witness :
    (UartTransmitByte 0x41 (0x80 :: ([0x00, 0x40] ++ 0xC0 :: [7]))).ret = some true ∧
    (UartTransmitByte 0x41 (0x80 :: ([0x00, 0x40] ++ 0xC0 :: [7]))).rest = [7] ∧
    (UartTransmitByte 0x41 (0x80 :: ([0x00, 0x40] ++ 0xC0 :: [7]))).trace
      = Event.readSR 0x80 :: Event.writeDR 0x41 ::
          (busyTrace [0x00, 0x40] ++ [Event.readSR 0xC0]) ∧
    dataWrites (UartTransmitByte 0x41 (0x80 :: ([0x00, 0x40] ++ 0xC0 :: [7]))).trace = [0x41] ∧
    copCount (UartTransmitByte 0x41 (0x80 :: ([0x00, 0x40] ++ 0xC0 :: [7]))).trace
      = [0x00, 0x40].length ∧
    (UartTransmitByte 0x41 (0x80 :: ([0x00, 0x40] ++ 0xC0 :: [7]))).trace.getLast?
      = some (Event.readSR 0xC0) :=
  C10_transmit_byte_success 0x41 0x80 [0x00, 0x40] 0xC0 [7] (by decide) (by decide) (by decide)

/-! ## Whole runs of `UartTransmitPacket` -/

/-- A trace guarded when it follows a non-read is guarded after anything. -/
theorem writesGuarded_mono (ok : Bool) (tr : List Event)
    (h : writesGuarded false tr = true) : writesGuarded ok tr = true := by
  cases tr with
  | nil => rfl
  | cons e t => cases e <;> simp_all [writesGuarded]

theorem writesGuarded_append (ok : Bool) (a b : List Event)
    (ha : writesGuarded ok a = true) (hb : writesGuarded false b = true) :
    writesGuarded ok (a ++ b) = true := by
  induction a generalizing ok with
  | nil => exact writesGuarded_mono ok b hb
  | cons e a ih =>
    cases e with
    | writeDR v =>
      simp only [writesGuarded, Bool.and_eq_true] at ha
      simp only [List.cons_append, writesGuarded, Bool.and_eq_true]
      exact ⟨ha.1, ih false ha.2⟩
    | readSR v => exact ih _ ha
    | readDR v => exact ih _ ha
    | cop => exact ih _ ha
    | store i v => exact ih _ ha
    | memCopy n => exact ih _ ha

/-- What the checker `writesGuarded` establishes: whatever write to the data register
occurs in the trace, the event just before it is a status read that had TXE set. -/
theorem writesGuarded_sound (tr : List Event) :
    ∀ (ok : Bool), writesGuarded ok tr = true →
      ∀ (pre : List Event) (v : Nat) (post : List Event), tr = pre ++ Event.writeDR v :: post →
        (pre = [] ∧ ok = true) ∨
        ∃ pre0 s, pre = pre0 ++ [Event.readSR s] ∧ s &&& UART_BIT_TXE ≠ 0 := by
  induction tr with
  | nil => intro ok _ pre v post h; simp at h
  | cons e t ih =>
    intro ok hg pre v post h
    cases pre with
    | nil =>
      simp only [List.nil_append, List.cons.injEq] at h
      obtain ⟨he, _⟩ := h
      subst he
      simp only [writesGuarded, Bool.and_eq_true] at hg
      exact Or.inl ⟨rfl, hg.1⟩
    | cons e0 pre1 =>
      simp only [List.cons_append, List.cons.injEq] at h
      obtain ⟨he, ht⟩ := h
      subst he
      right
      cases e with
      | readSR s =>
        rcases ih _ hg pre1 v post ht with ⟨h1, h2⟩ | ⟨pre0, s1, h1, h2⟩
        · refine ⟨[], s, by simp [h1], ?_⟩
          have : txBusy s = false := by simpa using h2
          exact (txBusy_eq_false_iff s).1 this
        · exact ⟨Event.readSR s :: pre0, s1, by simp [h1], h2⟩
      | writeDR w =>
        simp only [writesGuarded, Bool.and_eq_true] at hg
        rcases ih _ hg.2 pre1 v post ht with ⟨_, h2⟩ | ⟨pre0, s1, h1, h2⟩
        · simp at h2
        · exact ⟨Event.writeDR w :: pre0, s1, by simp [h1], h2⟩
      | readDR w =>
        rcases ih _ hg pre1 v post ht with ⟨_, h2⟩ | ⟨pre0, s1, h1, h2⟩
        · simp at h2
        · exact ⟨Event.readDR w :: pre0, s1, by simp [h1], h2⟩
      | cop =>
        rcases ih _ hg pre1 v post ht with ⟨_, h2⟩ | ⟨pre0, s1, h1, h2⟩
        · simp at h2
        · exact ⟨Event.cop :: pre0, s1, by simp [h1], h2⟩
      | store i w =>
        rcases ih _ hg pre1 v post ht with ⟨_, h2⟩ | ⟨pre0, s1, h1, h2⟩
        · simp at h2
        · exact ⟨Event.store i w :: pre0, s1, by simp [h1], h2⟩
      | memCopy n =>
        rcases ih _ hg pre1 v post ht with ⟨_, h2⟩ | ⟨pre0, s1, h1, h2⟩
        · simp at h2
        · exact ⟨Event.memCopy n :: pre0, s1, by simp [h1], h2⟩

/-- Every data-register write of `UartTransmitByte` follows its entry check. -/
theorem txByte_guarded (b : Nat) (srs : List Nat) :
    writesGuarded false (UartTransmitByte b srs).trace = true := by
  cases srs with
  | nil => rfl
  | cons s srs =>
    cases hs : txBusy s with
    | true => simp [UartTransmitByte, hs, writesGuarded]
    | false => simp [UartTransmitByte, hs, writesGuarded, (txWait_facts srs).2.2]

/-- The `for` loop of `UartTransmitPacket` over the bytes `bs` found at
`data[idx], data[idx+1], ...`, for every behaviour of the status register: the bytes
written are an initial part of `bs`; all of `bs` if the loop ran to its end, not all of
`bs` if an assertion failed, and then it is the one on line 147; every write follows a
status read that had TXE set. -/
theorem txLoop_run (data : Nat → Nat) (bs : List Nat) :
    ∀ (idx : Nat) (srs : List Nat), (∀ i, i < bs.length → data (idx + i) = bs.getD i 0) →
      (∃ k, dataWrites (txLoop data bs.length idx srs).trace = bs.take k) ∧
      ((txLoop data bs.length idx srs).status = TxStatus.returned →
        dataWrites (txLoop data bs.length idx srs).trace = bs) ∧
      (∀ l, (txLoop data bs.length idx srs).status = TxStatus.assertFailed l →
        l = 147 ∧ (dataWrites (txLoop data bs.length idx srs).trace).length < bs.length) ∧
      writesGuarded false (txLoop data bs.length idx srs).trace = true := by
  induction bs with
  | nil =>
    intro idx srs _
    simp [txLoop, dataWrites, writesGuarded]
  | cons b bs ih =>
    intro idx srs hdata
    have hb : data idx = b := by simpa using hdata 0 (by simp)
    have hrest : ∀ i, i < bs.length → data (idx + 1 + i) = bs.getD i 0 := by
      intro i hi
      have := hdata (i + 1) (by simp; omega)
      simpa [Nat.add_assoc, Nat.add_comm 1 i] using this
    have hg := txByte_guarded b srs
    simp only [List.length_cons, txLoop, hb]
    rcases txByte_cases b srs with ⟨hr, hw⟩ | ⟨hr, hw⟩ | ⟨hr, hw⟩
    · simp only [hr, dataWrites, writesGuarded, hg, and_true]
      refine ⟨?_, by simp, by simp⟩
      rcases hw with hw | hw
      · exact ⟨0, by simp [hw]⟩
      · exact ⟨1, by simp [hw]⟩
    · simp only [hr, ASSERT_RT, dataWrites, writesGuarded, hg, hw, and_true]
      exact ⟨⟨0, by simp⟩, by simp, by simp⟩
    · obtain ⟨⟨k, hk⟩, h2, h3, h4⟩ := ih (idx + 1) (UartTransmitByte b srs).rest hrest
      simp only [hr, ASSERT_RT, dataWrites, writesGuarded, dataWrites_append, hw]
      refine ⟨⟨k + 1, by simp [hk]⟩, ?_, ?_, writesGuarded_append _ _ _ hg h4⟩
      · intro h; simp [h2 h]
      · intro l h
        obtain ⟨h5, h6⟩ := h3 l h
        exact ⟨h5, by simpa using h6⟩

/-- With a peripheral that is ready at every entry check and ready again after every
write, the `for` loop runs to its end and consumes exactly the observations of its
byte transmissions. -/
theorem txLoop_returns (data : Nat → Nat) :
    ∀ (n idx : Nat) (obs : List (Nat × List Nat × Nat)) (rest : List Nat), obs.length = n →
      (∀ o ∈ obs, o.1 &&& UART_BIT_TXE ≠ 0 ∧ (∀ c ∈ o.2.1, c &&& UART_BIT_TXE = 0) ∧
        o.2.2 &&& UART_BIT_TXE ≠ 0) →
      (txLoop data n idx (obsStream obs ++ rest)).status = TxStatus.returned ∧
      (txLoop data n idx (obsStream obs ++ rest)).rest = rest := by
  intro n
  induction n with
  | zero =>
    intro idx obs rest hlen _
    have : obs = [] := List.length_eq_zero.1 hlen
    subst this
    simp [txLoop, obsStream]
  | succ n ih =>
    intro idx obs rest hlen hok
    match obs, hlen, hok with
    | (s0, busy, s1) :: obs, hlen, hok =>
      obtain ⟨h0, hb, h1⟩ := hok (s0, busy, s1) (List.mem_cons_self _ _)
      have hstream : obsStream ((s0, busy, s1) :: obs) ++ rest
          = s0 :: (busy ++ s1 :: (obsStream obs ++ rest)) := by
        simp [obsStream, List.append_assoc]
      have hbyte := txByte_ready (data idx) s0 busy s1 (obsStream obs ++ rest)
        ((txBusy_eq_false_iff s0).2 h0) (fun c hc => (txBusy_eq_true_iff c).2 (hb c hc))
        ((txBusy_eq_false_iff s1).2 h1)
      simp only [txLoop, hstream, hbyte, ASSERT_RT]
      exact ih (idx + 1) obs rest (by simpa using hlen)
        (fun o ho => hok o (List.mem_cons_of_mem _ ho))

/-- Result of `UartTransmitPacket` with a length over the limit: the assertion on line 136 fails
before anything else happens. -/
theorem txPacket_over (MAX : Nat) (data : Nat → Nat) (len : Nat) (srs : List Nat)
    (hlen : MAX < len) :
    UartTransmitPacket MAX data len srs
      = { status := TxStatus.assertFailed 136, trace := [], rest := srs } := by
  simp [UartTransmitPacket, ASSERT_RT, Nat.not_le.2 hlen]

/-- Result of `UartTransmitPacket` when the observations end inside the transmission of the length
byte. -/
theorem txPacket_of_none (MAX : Nat) (data : Nat → Nat) (len : Nat) (srs : List Nat)
    (hlen : len ≤ MAX) (hr : (UartTransmitByte len srs).ret = none) :
    UartTransmitPacket MAX data len srs
      = { status := TxStatus.waiting
          trace := (UartTransmitByte len srs).trace
          rest := (UartTransmitByte len srs).rest } := by
  simp [UartTransmitPacket, ASSERT_RT, hlen, hr]

/-- Result of `UartTransmitPacket` when the length byte's `UartTransmitByte` returns
`BLT_FALSE`. -/
theorem txPacket_of_false (MAX : Nat) (data : Nat → Nat) (len : Nat) (srs : List Nat)
    (hlen : len ≤ MAX) (hr : (UartTransmitByte len srs).ret = some false) :
    UartTransmitPacket MAX data len srs
      = { status := TxStatus.assertFailed 139
          trace := (UartTransmitByte len srs).trace
          rest := (UartTransmitByte len srs).rest } := by
  simp [UartTransmitPacket, ASSERT_RT, hlen, hr]

/-- Result of `UartTransmitPacket` when the length byte's `UartTransmitByte` returns
`BLT_TRUE`. -/
theorem txPacket_of_true (MAX : Nat) (data : Nat → Nat) (len : Nat) (srs : List Nat)
    (hlen : len ≤ MAX) (hr : (UartTransmitByte len srs).ret = some true) :
    UartTransmitPacket MAX data len srs
      = { status := (txLoop data len 0 (UartTransmitByte len srs).rest).status
          trace := (UartTransmitByte len srs).trace
                    ++ (txLoop data len 0 (UartTransmitByte len srs).rest).trace
          rest := (txLoop data len 0 (UartTransmitByte len srs).rest).rest } := by
  simp [UartTransmitPacket, ASSERT_RT, hlen, hr]

/-- An assertion failing inside the `for` loop is the one on line 147. -/
theorem txLoop_line (data : Nat → Nat) :
    ∀ (n idx : Nat) (srs : List Nat) (l : Nat),
      (txLoop data n idx srs).status = TxStatus.assertFailed l → l = 147 := by
  intro n
  induction n with
  | zero => intro idx srs l h; simp [txLoop] at h
  | succ n ih =>
    intro idx srs l h
    simp only [txLoop] at h
    cases hr : (UartTransmitByte (data idx) srs).ret with
    | none => simp [hr] at h
    | some v =>
      cases v with
      | false => simp [hr, ASSERT_RT] at h; exact h.symm
      | true =>
        simp only [hr, ASSERT_RT] at h
        exact ih (idx + 1) _ l (by simpa using h)

/-- With a length within the limit, an assertion that fails is the one on line 139 or
the one on line 147. -/
theorem txPacket_line (MAX : Nat) (data : Nat → Nat) (len : Nat) (srs : List Nat)
    (hlen : len ≤ MAX) (l : Nat)
    (h : (UartTransmitPacket MAX data len srs).status = TxStatus.assertFailed l) :
    l = 139 ∨ l = 147 := by
  cases hr : (UartTransmitByte len srs).ret with
  | none => rw [txPacket_of_none MAX data len srs hlen hr] at h; simp at h
  | some v =>
    cases v with
    | false =>
      rw [txPacket_of_false MAX data len srs hlen hr] at h
      simp only [TxStatus.assertFailed.injEq] at h
      exact Or.inl h.symm
    | true =>
      rw [txPacket_of_true MAX data len srs hlen hr] at h
      exact Or.inr (txLoop_line data len 0 _ l h)

/-- A run of `UartTransmitPacket(p, len(p))` with `len(p)` within the limit, for every
behaviour of the status register: the bytes written are an initial part of `len(p), p`;
all of it if the function returned; if an assertion failed it is the one on line 139
with nothing written, or the one on line 147 with at least the length byte and at most
`len(p)` bytes written; every write follows a status read that had TXE set. -/
theorem txPacket_run (MAX : Nat) (p : List Nat) (srs : List Nat) (hlen : p.length ≤ MAX) :
    (∃ k, dataWrites (UartTransmitPacket MAX (memOf p) p.length srs).trace
        = (p.length :: p).take k) ∧
    ((UartTransmitPacket MAX (memOf p) p.length srs).status = TxStatus.returned →
      dataWrites (UartTransmitPacket MAX (memOf p) p.length srs).trace = p.length :: p) ∧
    (∀ l, (UartTransmitPacket MAX (memOf p) p.length srs).status = TxStatus.assertFailed l →
      (l = 139 ∧ dataWrites (UartTransmitPacket MAX (memOf p) p.length srs).trace = []) ∨
      (l = 147 ∧ 1 ≤ (dataWrites (UartTransmitPacket MAX (memOf p) p.length srs).trace).length ∧
        (dataWrites (UartTransmitPacket MAX (memOf p) p.length srs).trace).length ≤ p.length)) ∧
    writesGuarded false (UartTransmitPacket MAX (memOf p) p.length srs).trace = true := by
  have hg := txByte_guarded p.length srs
  rcases txByte_cases p.length srs with ⟨hr, hw⟩ | ⟨hr, hw⟩ | ⟨hr, hw⟩
  · rw [txPacket_of_none MAX _ _ srs hlen hr]
    refine ⟨?_, by simp, by simp, hg⟩
    rcases hw with hw | hw
    · exact ⟨0, by simp [hw]⟩
    · exact ⟨1, by simp [hw]⟩
  · rw [txPacket_of_false MAX _ _ srs hlen hr]
    refine ⟨⟨0, by simp [hw]⟩, by simp, ?_, hg⟩
    intro l h
    left
    simp only [TxStatus.assertFailed.injEq] at h
    exact ⟨h.symm, hw⟩
  · obtain ⟨⟨k, hk⟩, h2, h3, h4⟩ := txLoop_run (memOf p) p 0 (UartTransmitByte p.length srs).rest
      (by intro i _; simp [memOf])
    rw [txPacket_of_true MAX _ _ srs hlen hr]
    simp only [dataWrites_append, hw]
    refine ⟨⟨k + 1, by simp [hk]⟩, ?_, ?_, writesGuarded_append _ _ _ hg h4⟩
    · intro h; simp [h2 h]
    · intro l h
      obtain ⟨h5, h6⟩ := h3 l h
      right
      refine ⟨h5, by simp, ?_⟩
      simp only [List.singleton_append, List.length_cons]
      omega

/-- With a peripheral that is ready at every entry check and ready again after every
write, `UartTransmitPacket` with a length within the limit returns. -/
theorem txPacket_returns (MAX : Nat) (data : Nat → Nat) (len : Nat)
    (obs : List (Nat × List Nat × Nat)) (rest : List Nat)
    (hlen : len ≤ MAX) (hobs : obs.length = len + 1)
    (hok : ∀ o ∈ obs, o.1 &&& UART_BIT_TXE ≠ 0 ∧ (∀ c ∈ o.2.1, c &&& UART_BIT_TXE = 0) ∧
      o.2.2 &&& UART_BIT_TXE ≠ 0) :
    (UartTransmitPacket MAX data len (obsStream obs ++ rest)).status = TxStatus.returned ∧
    (UartTransmitPacket MAX data len (obsStream obs ++ rest)).rest = rest := by
  match obs, hobs, hok with
  | (s0, busy, s1) :: obs, hobs, hok =>
    obtain ⟨h0, hb, h1⟩ := hok (s0, busy, s1) (List.mem_cons_self _ _)
    have hstream : obsStream ((s0, busy, s1) :: obs) ++ rest
        = s0 :: (busy ++ s1 :: (obsStream obs ++ rest)) := by
      simp [obsStream, List.append_assoc]
    have hbyte := txByte_ready len s0 busy s1 (obsStream obs ++ rest)
      ((txBusy_eq_false_iff s0).2 h0) (fun c hc => (txBusy_eq_true_iff c).2 (hb c hc))
      ((txBusy_eq_false_iff s1).2 h1)
    rw [hstream, txPacket_of_true MAX data len _ hlen (by rw [hbyte]), hbyte]
    exact txLoop_returns data len 0 obs rest (by simpa using hobs)
      (fun o ho => hok o (List.mem_cons_of_mem _ ho))

/-! ## C2: order of the transmitted bytes -/

/-- C2: for every payload `p` with `len(p) <= BOOT_COM_TX_MAX_DATA` and a peripheral that
reads TXE set at each entry check and, after each write, reads TXE set again after some
number of busy observations, `UartTransmitPacket(p, len(p))` returns, having performed
exactly `len(p) + 1` writes to the data register, with values `len(p), p[0], ...,
p[len(p)-1]` in that order; and each write comes directly after a read of the status
register that had TXE set. -/
theorem C2_transmit_order (BOOT_COM_TX_MAX_DATA : Nat) (p : List Nat)
    (obs : List (Nat × List Nat × Nat)) (rest : List Nat)
    (hlen : p.length ≤ BOOT_COM_TX_MAX_DATA) (hobs : obs.length = p.length + 1)
    (hok : ∀ o ∈ obs, o.1 &&& UART_BIT_TXE ≠ 0 ∧ (∀ c ∈ o.2.1, c &&& UART_BIT_TXE = 0) ∧
      o.2.2 &&& UART_BIT_TXE ≠ 0) :
    (UartTransmitPacket BOOT_COM_TX_MAX_DATA (memOf p) p.length
        (obsStream obs ++ rest)).status = TxStatus.returned ∧
    dataWrites (UartTransmitPacket BOOT_COM_TX_MAX_DATA (memOf p) p.length
        (obsStream obs ++ rest)).trace = p.length :: p ∧
    (dataWrites (UartTransmitPacket BOOT_COM_TX_MAX_DATA (memOf p) p.length
        (obsStream obs ++ rest)).trace).length = p.length + 1 ∧
    (∀ pre v post,
      (UartTransmitPacket BOOT_COM_TX_MAX_DATA (memOf p) p.length
        (obsStream obs ++ rest)).trace = pre ++ Event.writeDR v :: post →
      ∃ pre0 s, pre = pre0 ++ [Event.readSR s] ∧ s &&& UART_BIT_TXE ≠ 0) := by
  obtain ⟨hret, _⟩ := txPacket_returns BOOT_COM_TX_MAX_DATA (memOf p) p.length obs rest hlen
    hobs hok
  obtain ⟨_, hall, _, hg⟩ := txPacket_run BOOT_COM_TX_MAX_DATA p (obsStream obs ++ rest) hlen
  refine ⟨hret, hall hret, by rw [hall hret]; simp, ?_⟩
  intro pre v post h
  rcases writesGuarded_sound _ false hg pre v post h with ⟨_, h2⟩ | h2
  · simp at h2
  · exact h2

/-- C2 for the payload `[7, 9]`, with one busy observation after the first write. -/
theorem C2_transmit_order_witness :
    (UartTransmitPacket 8 (memOf [7, 9]) [7, 9].length
        (obsStream [(0x80, [0x00], 0x80), (0xC0, [], 0x80), (0x80, [], 0x80)] ++ [])).status
      = TxStatus.returned ∧
    dataWrites (UartTransmitPacket 8 (memOf [7, 9]) [7, 9].length
        (obsStream [(0x80, [0x00], 0x80), (0xC0, [], 0x80), (0x80, [], 0x80)] ++ [])).trace
      = [7, 9].length :: [7, 9] :=
  ⟨(C2_transmit_order 8 [7, 9] [(0x80, [0x00], 0x80), (0xC0, [], 0x80), (0x80, [], 0x80)] []
      (by decide) (by decide) (by decide)).1,
   (C2_transmit_order 8 [7, 9] [(0x80, [0x00], 0x80), (0xC0, [], 0x80), (0x80, [], 0x80)] []
      (by decide) (by decide) (by decide)).2.1⟩

/-! ## C6: the length limit of `UartTransmitPacket` -/

/-- C6: with a peripheral that reads TXE set at each entry check and again after each
write, `UartTransmitPacket` with `len` equal to `BOOT_COM_TX_MAX_DATA` returns and has
written all `len + 1` bytes; with `len` equal to `BOOT_COM_TX_MAX_DATA + 1` (when that
fits the 8-bit parameter) the assertion on line 136 fails before any status read or
data-register write; and for any `len` the assertion on the length (line 136) fails if
and only if `len > BOOT_COM_TX_MAX_DATA`. -/
theorem C6_transmit_length_limit (BOOT_COM_TX_MAX_DATA : Nat) (p : List Nat)
    (obs : List (Nat × List Nat × Nat)) (rest : List Nat)
    (hlen : p.length = BOOT_COM_TX_MAX_DATA) (hobs : obs.length = p.length + 1)
    (hok : ∀ o ∈ obs, o.1 &&& UART_BIT_TXE ≠ 0 ∧ (∀ c ∈ o.2.1, c &&& UART_BIT_TXE = 0) ∧
      o.2.2 &&& UART_BIT_TXE ≠ 0) :
    ((UartTransmitPacket BOOT_COM_TX_MAX_DATA (memOf p) p.length
        (obsStream obs ++ rest)).status = TxStatus.returned ∧
      dataWrites (UartTransmitPacket BOOT_COM_TX_MAX_DATA (memOf p) p.length
        (obsStream obs ++ rest)).trace = p.length :: p) ∧
    (∀ (data : Nat → Nat) (srs : List Nat), BOOT_COM_TX_MAX_DATA + 1 < 256 →
      (UartTransmitPacket BOOT_COM_TX_MAX_DATA data (BOOT_COM_TX_MAX_DATA + 1) srs).status
        = TxStatus.assertFailed 136 ∧
      (UartTransmitPacket BOOT_COM_TX_MAX_DATA data (BOOT_COM_TX_MAX_DATA + 1) srs).trace = [] ∧
      dataWrites
        (UartTransmitPacket BOOT_COM_TX_MAX_DATA data (BOOT_COM_TX_MAX_DATA + 1) srs).trace
        = []) ∧
    (∀ (data : Nat → Nat) (len : Nat) (srs : List Nat),
      (UartTransmitPacket BOOT_COM_TX_MAX_DATA data len srs).status
        = TxStatus.assertFailed 136 ↔ BOOT_COM_TX_MAX_DATA < len) := by
  refine ⟨?_, ?_, ?_⟩
  · obtain ⟨hret, _⟩ := txPacket_returns BOOT_COM_TX_MAX_DATA (memOf p) p.length obs rest
      (Nat.le_of_eq hlen) hobs hok
    exact ⟨hret,
      (txPacket_run BOOT_COM_TX_MAX_DATA p (obsStream obs ++ rest) (Nat.le_of_eq hlen)).2.1 hret⟩
  · intro data srs _
    rw [txPacket_over BOOT_COM_TX_MAX_DATA data _ srs (Nat.lt_succ_self _)]
    exact ⟨rfl, rfl, rfl⟩
  · intro data len srs
    constructor
    · intro h
      by_contra hle
      have := txPacket_line BOOT_COM_TX_MAX_DATA data len srs (Nat.not_lt.1 hle) 136 h
      omega
    · intro h
      rw [txPacket_over BOOT_COM_TX_MAX_DATA _ _ srs h]

/-- C6 with `BOOT_COM_TX_MAX_DATA = 2`: the payload `[7, 9]` is sent in full, a length of
3 fails the assertion on line 136 with nothing done. -/
theorem C6_transmit_length_limit_witness :
    ((UartTransmitPacket 2 (memOf [7, 9]) [7, 9].length
        (obsStream [(0x80, [], 0x80), (0x80, [], 0x80), (0x80, [0x00], 0x80)] ++ [])).status
        = TxStatus.returned ∧
      dataWrites (UartTransmitPacket 2 (memOf [7, 9]) [7, 9].length
        (obsStream [(0x80, [], 0x80), (0x80, [], 0x80), (0x80, [0x00], 0x80)] ++ [])).trace
        = [7, 9].length :: [7, 9]) ∧
    (UartTransmitPacket 2 (memOf [7, 9, 4]) (2 + 1) [0x80, 0x80]).status
      = TxStatus.assertFailed 136 :=
  ⟨(C6_transmit_length_limit 2 [7, 9]
      [(0x80, [], 0x80), (0x80, [], 0x80), (0x80, [0x00], 0x80)] [] (by decide) (by decide)
      (by decide)).1,
   ((C6_transmit_length_limit 2 [7, 9]
      [(0x80, [], 0x80), (0x80, [], 0x80), (0x80, [0x00], 0x80)] [] (by decide) (by decide)
      (by decide)).2.1 (memOf [7, 9, 4]) [0x80, 0x80] (by decide)).1⟩

/-! ## C8: a send that fails part-way -/

/-- C8 (as stated) fails: with `BOOT_COM_TX_MAX_DATA = 8` and the payload `[7]`, when the
status register reads TXE set at the first entry check and after the first write, and
TXE clear at the entry check of the payload byte, the run ends in the assertion on line
147 after one data-register write (the length byte): neither all `len(p) + 1 = 2` writes
nor none. -/
theorem C8_counterexample :
    (UartTransmitPacket 8 (memOf [7]) [7].length [0x80, 0x80, 0x00]).status
      = TxStatus.assertFailed 147 ∧
    dataWrites (UartTransmitPacket 8 (memOf [7]) [7].length [0x80, 0x80, 0x00]).trace = [1] ∧
    dataWrites (UartTransmitPacket 8 (memOf [7]) [7].length [0x80, 0x80, 0x00]).trace
      ≠ [7].length :: [7] ∧
    dataWrites (UartTransmitPacket 8 (memOf [7]) [7].length [0x80, 0x80, 0x00]).trace ≠ [] := by
  decide

/-- C8 (amended): for every payload `p` with `len(p) <= BOOT_COM_TX_MAX_DATA` and every
behaviour of the TXE flag, the data-register writes of a run of `UartTransmitPacket` are
an initial part of `len(p), p[0], ..., p[len(p)-1]`; a run that returns has performed all
`len(p) + 1` of them; a run that takes the fatal assertion path does so because a
`UartTransmitByte` returned `BLT_FALSE`, either for the length byte (line 139) with no
write performed, or for a payload byte (line 147) with the bytes before it written, at
least one and at most `len(p)`; in particular a peripheral that is not transmit-ready at
the first check causes the fatal assertion with zero writes. -/
theorem C8_send_stops_at_failure (BOOT_COM_TX_MAX_DATA : Nat) (p : List Nat) (srs : List Nat)
    (hlen : p.length ≤ BOOT_COM_TX_MAX_DATA) :
    (∃ k, dataWrites (UartTransmitPacket BOOT_COM_TX_MAX_DATA (memOf p) p.length srs).trace
        = (p.length :: p).take k) ∧
    ((UartTransmitPacket BOOT_COM_TX_MAX_DATA (memOf p) p.length srs).status
        = TxStatus.returned →
      dataWrites (UartTransmitPacket BOOT_COM_TX_MAX_DATA (memOf p) p.length srs).trace
        = p.length :: p) ∧
    (∀ l, (UartTransmitPacket BOOT_COM_TX_MAX_DATA (memOf p) p.length srs).status
        = TxStatus.assertFailed l →
      (l = 139 ∧
        dataWrites (UartTransmitPacket BOOT_COM_TX_MAX_DATA (memOf p) p.length srs).trace
          = []) ∨
      (l = 147 ∧
        1 ≤ (dataWrites
          (UartTransmitPacket BOOT_COM_TX_MAX_DATA (memOf p) p.length srs).trace).length ∧
        (dataWrites
          (UartTransmitPacket BOOT_COM_TX_MAX_DATA (memOf p) p.length srs).trace).length
          ≤ p.length)) ∧
    (∀ s rest, srs = s :: rest → s &&& UART_BIT_TXE = 0 →
      (UartTransmitPacket BOOT_COM_TX_MAX_DATA (memOf p) p.length srs).status
        = TxStatus.assertFailed 139 ∧
      dataWrites (UartTransmitPacket BOOT_COM_TX_MAX_DATA (memOf p) p.length srs).trace
        = []) := by
  obtain ⟨h1, h2, h3, _⟩ := txPacket_run BOOT_COM_TX_MAX_DATA p srs hlen
  refine ⟨h1, h2, h3, ?_⟩
  intro s rest hs hclear
  subst hs
  have hb : txBusy s = true := (txBusy_eq_true_iff s).2 hclear
  have hr : (UartTransmitByte p.length (s :: rest)).ret = some false := by
    simp [UartTransmitByte, hb]
  rw [txPacket_of_false BOOT_COM_TX_MAX_DATA _ _ _ hlen hr]
  simp [UartTransmitByte, hb, dataWrites]

/-- C8 (amended) for the payload `[7]` when the peripheral is not ready at the first
check. -/
theorem C8_send_stops_at_failure_witness :
    (UartTransmitPacket 8 (memOf [7]) [7].length [0x00, 0x80]).status
      = TxStatus.assertFailed 139 ∧
    dataWrites (UartTransmitPacket 8 (memOf [7]) [7].length [0x00, 0x80]).trace = [] :=
  (C8_send_stops_at_failure 8 [7] [0x00, 0x80] (by decide)).2.2.2 0x00 [0x80] rfl (by decide)

/-! ## C11: `UartReceiveByte` -/

/-- C11: `UartReceiveByte` reads the status register exactly once.  If RXNE is set in
the value read, it reads the data register exactly once, stores that value truncated to
8 bits in the destination byte (and nowhere else) and returns `BLT_TRUE`; if RXNE is
clear it returns `BLT_FALSE`, does not read the data register and leaves the destination
unchanged.  It never waits: a call performs at most three events. -/
theorem C11_receive_byte_exact (mem : Nat → Nat) (idx sr dr : Nat) :
    (sr &&& UART_BIT_RXNE ≠ 0 →
      (UartReceiveByte mem idx sr dr).ret = true ∧
      (UartReceiveByte mem idx sr dr).trace
        = [Event.readSR sr, Event.readDR dr, Event.store idx (dr % 256)] ∧
      (UartReceiveByte mem idx sr dr).mem idx = dr % 256 ∧
      (∀ j, j ≠ idx → (UartReceiveByte mem idx sr dr).mem j = mem j)) ∧
    (sr &&& UART_BIT_RXNE = 0 →
      (UartReceiveByte mem idx sr dr).ret = false ∧
      (UartReceiveByte mem idx sr dr).trace = [Event.readSR sr] ∧
      (UartReceiveByte mem idx sr dr).mem = mem) ∧
    ((UartReceiveByte mem idx sr dr).trace.filter (fun e => e matches Event.readSR _)
      = [Event.readSR sr]) ∧
    (UartReceiveByte mem idx sr dr).trace.length ≤ 3 := by
  cases h : rxReady sr with
  | true =>
    have h1 : sr &&& UART_BIT_RXNE ≠ 0 := (rxReady_eq_true_iff sr).1 h
    refine ⟨fun _ => ?_, fun h0 => absurd h0 h1, ?_, ?_⟩
    · refine ⟨by simp [UartReceiveByte, h], by simp [UartReceiveByte, h],
        by simp [UartReceiveByte, h, memStore], ?_⟩
      intro j hj
      simp [UartReceiveByte, h, memStore, hj]
    · simp [UartReceiveByte, h, List.filter]
    · simp [UartReceiveByte, h]
  | false =>
    have h1 : sr &&& UART_BIT_RXNE = 0 := (rxReady_eq_false_iff sr).1 h
    refine ⟨fun h0 => absurd h1 h0, fun _ => ?_, ?_, ?_⟩
    · exact ⟨by simp [UartReceiveByte, h], by simp [UartReceiveByte, h],
        by simp [UartReceiveByte, h]⟩
    · simp [UartReceiveByte, h, List.filter]
    · simp [UartReceiveByte, h]

/-- C11 with RXNE set and the data register reading `0x1AB`: the destination receives
`0xAB`. -/
theorem C11_receive_byte_exact_witness :
    0x20 &&& UART_BIT_RXNE ≠ 0 ∧
    (UartReceiveByte (memOf [7, 7, 7]) 1 0x20 0x1AB).ret = true ∧
    (UartReceiveByte (memOf [7, 7, 7]) 1 0x20 0x1AB).trace
      = [Event.readSR 0x20, Event.readDR 0x1AB, Event.store 1 (0x1AB % 256)] ∧
    (UartReceiveByte (memOf [7, 7, 7]) 1 0x20 0x1AB).mem 1 = 0x1AB % 256 ∧
    (∀ j, j ≠ 1 → (UartReceiveByte (memOf [7, 7, 7]) 1 0x20 0x1AB).mem j = memOf [7, 7, 7] j) :=
  ⟨by decide, (C11_receive_byte_exact (memOf [7, 7, 7]) 1 0x20 0x1AB).1 (by decide)⟩

/-! ## Initialisation: the register state and the baud-rate divisor -/

/-- The register state after `UartInit`, whatever it was before. -/
theorem UartInit_eq (khz baud : Nat) (r : UartRegs) :
    UartInit khz baud r
      = { BRR := baudDivisor khz baud % 2 ^ 16, CR1 := 0x200C, CR2 := 0, CR3 := 0, GTPR := 0 } := by
  simp only [UartInit, Nat.zero_or]
  have h : (UART_BIT_UE ||| UART_BIT_TE ||| UART_BIT_RE) % 2 ^ 16 = 0x200C := by decide
  rw [h]

/-- The function `roundDiv` is rounding of the exact quotient to the nearest integer. -/
theorem roundDiv_eq_round (a b : Nat) (hb : 0 < b) :
    ((roundDiv a b : ℕ) : ℤ) = round ((a : ℚ) / b) := by
  have hbq : (b : ℚ) ≠ 0 := by exact_mod_cast hb.ne'
  rw [round_eq, roundDiv]
  have : (a : ℚ) / b + 1 / 2 = ((2 * a + b : ℕ) : ℚ) / ((2 * b : ℕ) : ℚ) := by
    push_cast
    field_simp
    ring
  rw [this, Rat.floor_natCast_div_natCast]
  rfl

/-- Rounding to nearest gives the truncated quotient exactly when the remainder is less
than half the divisor. -/
theorem roundDiv_eq_div_iff (q b : Nat) (hb : 0 < b) :
    roundDiv q b = q / b ↔ 2 * (q % b) < b := by
  unfold roundDiv
  have hq : 2 * q + b = (2 * (q % b) + b) + 2 * b * (q / b) := by
    have := Nat.div_add_mod q b
    nlinarith
  rw [hq, Nat.add_mul_div_left _ _ (by omega : 0 < 2 * b)]
  have hm : q % b < b := Nat.mod_lt _ hb
  constructor
  · intro h
    have h0 : (2 * (q % b) + b) / (2 * b) = 0 := by omega
    rw [Nat.div_eq_zero_iff (by omega : 0 < 2 * b)] at h0
    omega
  · intro h
    rw [Nat.div_eq_of_lt (by omega)]
    omega

/-! ## C12: the baud-rate divisor formula -/

/-- C12 (as stated) fails: for a core clock of 72000 kHz and a baud rate of 56000 the
exact quotient is 36000000/56000 = 642.857..., which rounds to 643, while `UartInit`
writes 642 to the baud-rate register. -/
theorem C12_counterexample :
    (UartInit 72000 56000 ⟨0, 0, 0, 0, 0⟩).BRR = 642 ∧ specDivisor 72000 56000 = 643 ∧
    ((UartInit 72000 56000 ⟨0, 0, 0, 0, 0⟩).BRR : ℤ) ≠ specDivisor 72000 56000 := by
  have h1 : (UartInit 72000 56000 ⟨0, 0, 0, 0, 0⟩).BRR = 642 := by
    rw [UartInit_eq]; decide
  have h2 : specDivisor 72000 56000 = 643 := by
    unfold specDivisor
    rw [round_eq, Int.floor_eq_iff]
    norm_num
  refine ⟨h1, h2, ?_⟩
  rw [h1, h2]
  decide

/-- C12 (amended): for every core clock frequency and every positive baud rate for
which the product `(coreClockKHz / 2) * 1000` fits 32 bits and the quotient fits the
16-bit register, the value `UartInit` writes to the baud-rate register is the exact
quotient `(peripheralClockKHz * 1000) / targetBaudRate` truncated to an integer (its
floor), where `peripheralClockKHz` is the integer half of `coreClockKHz`; it equals the
quotient rounded to the nearest integer exactly when the remainder of the division is
less than half the baud rate. -/
theorem C12_divisor_truncates (khz baud : Nat) (r : UartRegs) (hb : 0 < baud)
    (h32 : khz / 2 * 1000 < 2 ^ 32) (h16 : khz / 2 * 1000 / baud < 2 ^ 16) :
    (UartInit khz baud r).BRR = khz / 2 * 1000 / baud ∧
    (((UartInit khz baud r).BRR : ℕ) : ℤ) = ⌊(((khz / 2 * 1000 : ℕ) : ℚ)) / (baud : ℚ)⌋ ∧
    ((((UartInit khz baud r).BRR : ℕ) : ℤ) = round ((((khz / 2 * 1000 : ℕ) : ℚ)) / (baud : ℚ))
      ↔ 2 * (khz / 2 * 1000 % baud) < baud) := by
  have hbrr : (UartInit khz baud r).BRR = khz / 2 * 1000 / baud := by
    rw [UartInit_eq]
    simp only [baudDivisor]
    rw [Nat.mod_eq_of_lt h32, Nat.mod_eq_of_lt h16]
  refine ⟨hbrr, ?_, ?_⟩
  · rw [hbrr, Rat.floor_natCast_div_natCast]
    norm_cast
  · rw [hbrr, ← roundDiv_eq_round _ _ hb, ← roundDiv_eq_div_iff _ _ hb]
    constructor
    · intro h; exact (Int.ofNat_inj.1 h).symm
    · intro h; rw [h]

/-- C12 (amended) for a core clock of 72000 kHz and a baud rate of 56000: the register
receives 642, the floor of 642.857.... -/
theorem C12_divisor_truncates_witness :
    (UartInit 72000 56000 ⟨1, 2, 3, 4, 5⟩).BRR = 72000 / 2 * 1000 / 56000 ∧
    (((UartInit 72000 56000 ⟨1, 2, 3, 4, 5⟩).BRR : ℕ) : ℤ)
      = ⌊(((72000 / 2 * 1000 : ℕ) : ℚ)) / ((56000 : ℕ) : ℚ)⌋ :=
  ⟨(C12_divisor_truncates 72000 56000 ⟨1, 2, 3, 4, 5⟩ (by decide) (by decide) (by decide)).1,
   (C12_divisor_truncates 72000 56000 ⟨1, 2, 3, 4, 5⟩ (by decide) (by decide) (by decide)).2.1⟩

/-! ## C13: the registers after initialisation -/

/-- C13: for every prior content `r` of the registers, after `UartInit` control register
1 equals exactly `UE|TE|RE` (`0x200C`), control registers 2 and 3 and the guard-time and
prescaler register are 0, and the baud-rate register holds the value of the divisor
expression in its 16 bits (the divisor itself whenever it is below `2^16`); the result
does not depend on the prior content, and running `UartInit` twice gives the same
registers as running it once. -/
theorem C13_init_postcondition (khz baud : Nat) (r r2 : UartRegs) :
    (UartInit khz baud r).CR1 = UART_BIT_UE ||| UART_BIT_TE ||| UART_BIT_RE ∧
    (UartInit khz baud r).CR1 = 0x200C ∧
    (UartInit khz baud r).CR2 = 0 ∧
    (UartInit khz baud r).CR3 = 0 ∧
    (UartInit khz baud r).GTPR = 0 ∧
    (UartInit khz baud r).BRR = baudDivisor khz baud % 2 ^ 16 ∧
    (baudDivisor khz baud < 2 ^ 16 → (UartInit khz baud r).BRR = baudDivisor khz baud) ∧
    UartInit khz baud r = UartInit khz baud r2 ∧
    UartInit khz baud (UartInit khz baud r) = UartInit khz baud r := by
  rw [UartInit_eq khz baud (UartInit khz baud r), UartInit_eq khz baud r,
    UartInit_eq khz baud r2]
  have hbits : (0x200C : Nat) = UART_BIT_UE ||| UART_BIT_TE ||| UART_BIT_RE := by decide
  refine ⟨hbits, rfl, rfl, rfl, rfl, rfl, ?_, rfl, rfl⟩
  intro h
  exact Nat.mod_eq_of_lt h

/-- C13 for a 72000 kHz core clock, 57600 baud and registers holding arbitrary values
before. -/
theorem C13_init_postcondition_witness :
    baudDivisor 72000 57600 < 2 ^ 16 ∧
    (UartInit 72000 57600 ⟨0xFFFF, 0x1234, 0xFFFF, 0x0700, 0x0101⟩).BRR
      = baudDivisor 72000 57600 ∧
    UartInit 72000 57600 ⟨0xFFFF, 0x1234, 0xFFFF, 0x0700, 0x0101⟩
      = UartInit 72000 57600 ⟨0, 0, 0, 0, 0⟩ :=
  ⟨by decide,
   (C13_init_postcondition 72000 57600 ⟨0xFFFF, 0x1234, 0xFFFF, 0x0700, 0x0101⟩
      ⟨0, 0, 0, 0, 0⟩).2.2.2.2.2.2.1 (by decide),
   (C13_init_postcondition 72000 57600 ⟨0xFFFF, 0x1234, 0xFFFF, 0x0700, 0x0101⟩
      ⟨0, 0, 0, 0, 0⟩).2.2.2.2.2.2.2.1⟩

/-! ## C14: the divisor for 72 MHz and 57600 baud -/

/-- C14: for a core clock of 72000 kHz and a baud rate of 57600 the divisor expression
of `UartInit`, `((72000/2)*1000)/57600` in unsigned 32-bit arithmetic, is 625; that is
the exact quotient `(36000*1000)/57600` rounded to the nearest integer; it is below
`2^16`, and it is the value the baud-rate register holds after `UartInit`. -/
theorem C14_concrete_divisor :
    baudDivisor 72000 57600 = 625 ∧
    round ((36000 * 1000 : ℚ) / 57600) = 625 ∧
    specDivisor 72000 57600 = 625 ∧
    roundDiv (36000 * 1000) 57600 = 625 ∧
    baudDivisor 72000 57600 < 2 ^ 16 ∧
    (UartInit 72000 57600 ⟨0, 0, 0, 0, 0⟩).BRR = 625 := by
  refine ⟨by decide, ?_, ?_, by decide, by decide, ?_⟩
  · rw [round_eq, Int.floor_eq_iff]
    norm_num
  · unfold specDivisor
    rw [round_eq, Int.floor_eq_iff]
    norm_num
  · rw [UartInit_eq]; decide

/-! ## C17: `CopService` between transmitted bytes -/

/-- A trace that is fine right after a write is fine anywhere. -/
theorem copSeparated_mono (tr : List Event) :
    ∀ ok, copSeparated false tr = true → copSeparated ok tr = true := by
  induction tr with
  | nil => intro _ _; rfl
  | cons e t ih =>
    intro ok h
    cases e with
    | writeDR v => simp [copSeparated] at h
    | cop => exact h
    | readSR v => exact ih ok h
    | readDR v => exact ih ok h
    | store i v => exact ih ok h
    | memCopy n => exact ih ok h

theorem copSeparated_append (a b : List Event) :
    ∀ ok, copSeparated ok a = true → copSeparated false b = true →
      copSeparated ok (a ++ b) = true := by
  induction a with
  | nil => intro ok _ hb; exact copSeparated_mono b ok hb
  | cons e a ih =>
    intro ok ha hb
    cases e with
    | writeDR v =>
      simp only [copSeparated, Bool.and_eq_true] at ha
      simp only [List.cons_append, copSeparated, Bool.and_eq_true]
      exact ⟨ha.1, ih false ha.2 hb⟩
    | cop => exact ih true ha hb
    | readSR v => exact ih ok ha hb
    | readDR v => exact ih ok ha hb
    | store i v => exact ih ok ha hb
    | memCopy n => exact ih ok ha hb

/-- After a write, a further write can only come after a `CopService` call. -/
theorem copSeparated_mid (mid : List Event) (w : Nat) (post : List Event) :
    copSeparated false (mid ++ Event.writeDR w :: post) = true → Event.cop ∈ mid := by
  induction mid with
  | nil => intro h; simp [copSeparated] at h
  | cons e mid ih =>
    intro h
    cases e with
    | writeDR v => simp [copSeparated] at h
    | cop => exact List.mem_cons_self _ _
    | readSR v => exact List.mem_cons_of_mem _ (ih h)
    | readDR v => exact List.mem_cons_of_mem _ (ih h)
    | store i v => exact List.mem_cons_of_mem _ (ih h)
    | memCopy n => exact List.mem_cons_of_mem _ (ih h)

/-- What the checker `copSeparated` establishes: between any two writes to the data
register in the trace there is a `CopService` call. -/
theorem copSeparated_sound (tr : List Event) :
    ∀ (ok : Bool), copSeparated ok tr = true →
      ∀ (pre : List Event) (v : Nat) (mid : List Event) (w : Nat) (post : List Event),
        tr = pre ++ Event.writeDR v :: (mid ++ Event.writeDR w :: post) → Event.cop ∈ mid := by
  induction tr with
  | nil => intro ok _ pre v mid w post h; simp at h
  | cons e t ih =>
    intro ok hg pre v mid w post h
    cases pre with
    | nil =>
      simp only [List.nil_append, List.cons.injEq] at h
      obtain ⟨he, ht⟩ := h
      subst he
      simp only [copSeparated, Bool.and_eq_true] at hg
      rw [ht] at hg
      exact copSeparated_mid mid w post hg.2
    | cons e0 pre1 =>
      simp only [List.cons_append, List.cons.injEq] at h
      obtain ⟨he, ht⟩ := h
      subst he
      cases e with
      | writeDR u =>
        simp only [copSeparated, Bool.and_eq_true] at hg
        exact ih false hg.2 pre1 v mid w post ht
      | cop => exact ih true hg pre1 v mid w post ht
      | readSR u => exact ih ok hg pre1 v mid w post ht
      | readDR u => exact ih ok hg pre1 v mid w post ht
      | store i u => exact ih ok hg pre1 v mid w post ht
      | memCopy n => exact ih ok hg pre1 v mid w post ht

/-- The busy-wait loop writes nothing, so its trace is fine in any position. -/
theorem txWait_copSeparated (srs : List Nat) :
    ∀ ok, copSeparated ok (txWait srs).trace = true := by
  induction srs with
  | nil => intro ok; rfl
  | cons s srs ih =>
    intro ok
    cases hs : txBusy s with
    | true => simp only [txWait, hs, if_true, copSeparated]; exact ih true
    | false => simp [txWait, hs, copSeparated]

/-- A call of `UartTransmitByte` writes at most once. -/
theorem txByte_copSeparated (b : Nat) (srs : List Nat) :
    copSeparated true (UartTransmitByte b srs).trace = true := by
  cases srs with
  | nil => rfl
  | cons s srs =>
    cases hs : txBusy s with
    | true => simp [UartTransmitByte, hs, copSeparated]
    | false =>
      simp only [UartTransmitByte, hs, copSeparated, Bool.true_and]
      exact txWait_copSeparated srs false

/-- Every iteration of the `for` loop starts with a `CopService` call; a loop that ran
to its end made at least as many calls as iterations. -/
theorem txLoop_cop (data : Nat → Nat) :
    ∀ (n idx : Nat) (srs : List Nat),
      copSeparated false (txLoop data n idx srs).trace = true ∧
      ((txLoop data n idx srs).status = TxStatus.returned →
        n ≤ copCount (txLoop data n idx srs).trace) := by
  intro n
  induction n with
  | zero => intro idx srs; simp [txLoop, copSeparated]
  | succ n ih =>
    intro idx srs
    have hb := txByte_copSeparated (data idx) srs
    simp only [txLoop]
    cases hr : (UartTransmitByte (data idx) srs).ret with
    | none => simp [copSeparated, hb]
    | some v =>
      cases v with
      | false => simp [ASSERT_RT, copSeparated, hb]
      | true =>
        obtain ⟨h1, h2⟩ := ih (idx + 1) (UartTransmitByte (data idx) srs).rest
        simp only [ASSERT_RT, beq_self_eq_true, if_true, copSeparated, copCount,
          copCount_append]
        refine ⟨copSeparated_append _ _ true hb h1, ?_⟩
        intro h
        have := h2 h
        omega

/-- C17: in every run of `UartTransmitPacket`, for every payload, length and behaviour
of the status register, between any two writes to the data register there is at least
one `CopService` call; and a run that returns, having sent `len` payload bytes, has
called `CopService` at least `len` times. -/
theorem C17_keep_alive_between_bytes (BOOT_COM_TX_MAX_DATA : Nat) (data : Nat → Nat)
    (len : Nat) (srs : List Nat) :
    (∀ (pre : List Event) (v : Nat) (mid : List Event) (w : Nat) (post : List Event),
      (UartTransmitPacket BOOT_COM_TX_MAX_DATA data len srs).trace
        = pre ++ Event.writeDR v :: (mid ++ Event.writeDR w :: post) →
      Event.cop ∈ mid) ∧
    ((UartTransmitPacket BOOT_COM_TX_MAX_DATA data len srs).status = TxStatus.returned →
      len ≤ copCount (UartTransmitPacket BOOT_COM_TX_MAX_DATA data len srs).trace) := by
  have hb := txByte_copSeparated len srs
  by_cases hlen : len ≤ BOOT_COM_TX_MAX_DATA
  · cases hr : (UartTransmitByte len srs).ret with
    | none =>
      rw [txPacket_of_none _ data len srs hlen hr]
      exact ⟨copSeparated_sound _ true hb, by simp⟩
    | some v =>
      cases v with
      | false =>
        rw [txPacket_of_false _ data len srs hlen hr]
        exact ⟨copSeparated_sound _ true hb, by simp⟩
      | true =>
        rw [txPacket_of_true _ data len srs hlen hr]
        obtain ⟨h1, h2⟩ := txLoop_cop data len 0 (UartTransmitByte len srs).rest
        refine ⟨copSeparated_sound _ true (copSeparated_append _ _ true hb h1), ?_⟩
        intro h
        have := h2 h
        simp only [copCount_append]
        omega
  · rw [txPacket_over _ data len srs (Nat.not_le.1 hlen)]
    refine ⟨?_, by simp⟩
    intro pre v mid w post h
    simp at h

/-- C17 on a run that sends the payload `[7, 9]`: it returns and has called
`CopService` at least twice. -/
theorem C17_keep_alive_between_bytes_witness :
    (UartTransmitPacket 8 (memOf [7, 9]) 2 [0x80, 0x80, 0x80, 0x80, 0x80, 0x80]).status
      = TxStatus.returned ∧
    2 ≤ copCount
      (UartTransmitPacket 8 (memOf [7, 9]) 2 [0x80, 0x80, 0x80, 0x80, 0x80, 0x80]).trace :=
  ⟨by decide,
   (C17_keep_alive_between_bytes 8 (memOf [7, 9]) 2 [0x80, 0x80, 0x80, 0x80, 0x80, 0x80]).2
      (by decide)⟩

/-! ## The statics under well-formed length bytes -/

theorem RxInv_init (MAX : Nat) : RxInv MAX RxState.init := by
  simp [RxInv, RxState.init]

/-- One poll from a state satisfying `RxInv`, when a byte consumed as length byte lies in
`1..MAX`: the relation is kept, every store is inside the assembly buffer, the received
count after storing at index `i >= 1` is `i` (the increment did not wrap), and a copy to
the caller has a count in `1..MAX`. -/
theorem rx_step_safe (MAX : Nat) (st : RxState) (data : Nat → Nat) (sr dr : Nat)
    (hinv : RxInv MAX st)
    (hlen : st.xcpCtoRxInProgress = false → rxReady sr = true →
      1 ≤ dr % 256 ∧ dr % 256 ≤ MAX) :
    RxInv MAX (UartReceivePacket st data sr dr).st ∧
    (∀ i v, Event.store i v ∈ (UartReceivePacket st data sr dr).trace → i ≤ MAX) ∧
    (∀ i v, Event.store i v ∈ (UartReceivePacket st data sr dr).trace → 1 ≤ i →
      (UartReceivePacket st data sr dr).st.xcpCtoRxLength = i) ∧
    (∀ n, Event.memCopy n ∈ (UartReceivePacket st data sr dr).trace → 1 ≤ n ∧ n ≤ MAX) := by
  obtain ⟨h1, h2, h3, h4⟩ := hinv
  cases hx : rxReady sr with
  | false =>
    rw [rx_idle st data sr dr hx]
    exact ⟨⟨h1, h2, h3, h4⟩, by simp, by simp, by simp⟩
  | true =>
    cases hp : st.xcpCtoRxInProgress with
    | false =>
      obtain ⟨hl1, hl2⟩ := hlen hp hx
      rw [rx_length_step st data sr dr hp hx]
      refine ⟨⟨?_, ?_, ?_, ?_⟩, ?_, ?_, ?_⟩
      · simpa [memStore] using hl2
      · simpa [memStore] using Nat.mod_lt dr (by decide)
      · intro _; simpa [memStore] using hl1
      · intro h; simp at h
      · intro i v h
        simp only [List.mem_cons, Event.store.injEq, List.mem_singleton, reduceCtorEq,
          false_or, or_false, List.not_mem_nil] at h
        omega
      · intro i v h hi
        simp only [List.mem_cons, Event.store.injEq, List.mem_singleton, reduceCtorEq,
          false_or, or_false, List.not_mem_nil] at h
        omega
      · intro n h; simp at h
    | true =>
      have hk := h3 hp
      have hmod : (st.xcpCtoRxLength + 1) % 256 = st.xcpCtoRxLength + 1 :=
        Nat.mod_eq_of_lt (by omega)
      have hbuf0 : memStore st.xcpCtoReqPacket (st.xcpCtoRxLength + 1) (dr % 256) 0
          = st.xcpCtoReqPacket 0 := by simp [memStore]
      by_cases hl : (st.xcpCtoRxLength + 1) % 256 = st.xcpCtoReqPacket 0
      · rw [rx_last_step st data sr dr hp hx hl]
        refine ⟨⟨?_, ?_, ?_, ?_⟩, ?_, ?_, ?_⟩
        · simpa [hbuf0] using h1
        · simpa [hbuf0] using h2
        · intro h; simp at h
        · intro _; simp only [hbuf0]; exact hl
        · intro i v h
          simp only [List.mem_cons, Event.store.injEq, List.mem_singleton, reduceCtorEq,
            false_or, or_false, List.not_mem_nil] at h
          omega
        · intro i v h _
          simp only [List.mem_cons, Event.store.injEq, List.mem_singleton, reduceCtorEq,
            false_or, or_false, List.not_mem_nil] at h
          simp only [hmod]
          omega
        · intro n h
          simp only [List.mem_cons, Event.memCopy.injEq, List.mem_singleton, reduceCtorEq,
            false_or, or_false, List.not_mem_nil] at h
          omega
      · rw [rx_middle_step st data sr dr hp hx hl]
        refine ⟨⟨?_, ?_, ?_, ?_⟩, ?_, ?_, ?_⟩
        · simpa [hbuf0] using h1
        · simpa [hbuf0] using h2
        · intro _; simp only [hbuf0]; omega
        · intro h; simp at h
        · intro i v h
          simp only [List.mem_cons, Event.store.injEq, List.mem_singleton, reduceCtorEq,
            false_or, or_false, List.not_mem_nil] at h
          omega
        · intro i v h _
          simp only [List.mem_cons, Event.store.injEq, List.mem_singleton, reduceCtorEq,
            false_or, or_false, List.not_mem_nil] at h
          simp only [hmod]
          omega
        · intro n h; simp at h

/-- A run of polls from a state satisfying `RxInv`, over a stream whose length bytes lie
in `1..MAX`: the relation holds at the end, and every poll of the run is safe in the
sense of `rx_step_safe`. -/
theorem run_safe (MAX : Nat) (ins : List (Nat × Nat)) :
    ∀ (st : RxState) (data : Nat → Nat), RxInv MAX st →
      lengthBytesOk MAX st data ins = true →
      RxInv MAX (pollEnd st data ins).1 ∧
      ∀ r ∈ pollAll st data ins,
        (∀ i v, Event.store i v ∈ r.trace → i ≤ MAX) ∧
        (∀ i v, Event.store i v ∈ r.trace → 1 ≤ i → r.st.xcpCtoRxLength = i) ∧
        (∀ n, Event.memCopy n ∈ r.trace → 1 ≤ n ∧ n ≤ MAX) ∧
        r.st.xcpCtoRxLength ≤ r.st.xcpCtoReqPacket 0 ∧ r.st.xcpCtoReqPacket 0 ≤ MAX ∧
        r.st.xcpCtoReqPacket 0 < 256 := by
  induction ins with
  | nil => intro st data hinv _; exact ⟨hinv, by simp [pollAll]⟩
  | cons x ins ih =>
    intro st data hinv hok
    obtain ⟨sr, dr⟩ := x
    simp only [lengthBytesOk, Bool.and_eq_true] at hok
    obtain ⟨hok1, hok2⟩ := hok
    have hlen : st.xcpCtoRxInProgress = false → rxReady sr = true →
        1 ≤ dr % 256 ∧ dr % 256 ≤ MAX := by
      intro a b
      simpa [a, b] using hok1
    obtain ⟨s1, s2, s3, s4⟩ := rx_step_safe MAX st data sr dr hinv hlen
    obtain ⟨e1, e2⟩ := ih _ _ s1 hok2
    refine ⟨e1, ?_⟩
    intro r hr
    simp only [pollAll, List.mem_cons] at hr
    rcases hr with hr | hr
    · subst hr
      refine ⟨s2, s3, s4, ?_, s1.1, s1.2.1⟩
      cases hp : (UartReceivePacket st data sr dr).st.xcpCtoRxInProgress with
      | true => exact Nat.le_of_lt (s1.2.2.1 hp)
      | false => exact Nat.le_of_eq (s1.2.2.2 hp)
    · exact e2 r hr

/-! ## C15: the relation between received count and declared length -/

/-- C15 (as stated) fails.  After the one-byte packet `1, 0xAA` no packet is in progress
and the received count is 1, not 0.  After the length byte 200 the declared length is 200,
above a limit of 64.  After the length byte 0 and one more byte the received count 1
exceeds the declared length 0. -/
theorem C15_counterexample :
    ((pollEnd RxState.init (memOf []) [(0x20, 1), (0x20, 0xAA)]).1.xcpCtoRxInProgress = false ∧
      (pollEnd RxState.init (memOf []) [(0x20, 1), (0x20, 0xAA)]).1.xcpCtoRxLength = 1) ∧
    ((pollEnd RxState.init (memOf []) [(0x20, 200)]).1.xcpCtoReqPacket 0 = 200 ∧
      ¬ (pollEnd RxState.init (memOf []) [(0x20, 200)]).1.xcpCtoReqPacket 0 ≤ 64) ∧
    ((pollEnd RxState.init (memOf []) [(0x20, 0), (0x20, 5)]).1.xcpCtoRxLength = 1 ∧
      (pollEnd RxState.init (memOf []) [(0x20, 0), (0x20, 5)]).1.xcpCtoReqPacket 0 = 0) := by
  decide

/-- C15 (amended): in every receiver state reachable from the initial state by any
sequence of polls (with or without data on each poll) over a byte stream in which every
byte consumed as a length byte lies in `1..MAX_PACKET_LEN`,
`received <= declaredLength <= MAX_PACKET_LEN` holds (`received = xcpCtoRxLength`,
`declaredLength` = buffer slot 0); while a packet is in progress `received` is below
`declaredLength`; and while none is in progress `received` equals `declaredLength`: the
count stays at the length of the completed packet (it is 0 only before the first
packet) until the poll that consumes the next length byte resets it. -/
theorem C15_receive_state_invariant (MAX_PACKET_LEN : Nat) (data : Nat → Nat)
    (ins : List (Nat × Nat))
    (h : lengthBytesOk MAX_PACKET_LEN RxState.init data ins = true) :
    (pollEnd RxState.init data ins).1.xcpCtoRxLength
      ≤ (pollEnd RxState.init data ins).1.xcpCtoReqPacket 0 ∧
    (pollEnd RxState.init data ins).1.xcpCtoReqPacket 0 ≤ MAX_PACKET_LEN ∧
    ((pollEnd RxState.init data ins).1.xcpCtoRxInProgress = true →
      (pollEnd RxState.init data ins).1.xcpCtoRxLength
        < (pollEnd RxState.init data ins).1.xcpCtoReqPacket 0) ∧
    ((pollEnd RxState.init data ins).1.xcpCtoRxInProgress = false →
      (pollEnd RxState.init data ins).1.xcpCtoRxLength
        = (pollEnd RxState.init data ins).1.xcpCtoReqPacket 0) := by
  obtain ⟨⟨h1, _, h3, h4⟩, _⟩ :=
    run_safe MAX_PACKET_LEN ins RxState.init data (RxInv_init MAX_PACKET_LEN) h
  refine ⟨?_, h1, h3, h4⟩
  cases hp : (pollEnd RxState.init data ins).1.xcpCtoRxInProgress with
  | true => exact Nat.le_of_lt (h3 hp)
  | false => exact Nat.le_of_eq (h4 hp)

/-- C15 (amended) after a two-byte packet and an idle poll, with a limit of 64. -/
theorem C15_receive_state_invariant_witness :
    lengthBytesOk 64 RxState.init (memOf [])
      [(0x20, 2), (0x20, 0x11), (0x80, 0), (0x20, 0x22), (0x80, 0)] = true ∧
    (pollEnd RxState.init (memOf [])
      [(0x20, 2), (0x20, 0x11), (0x80, 0), (0x20, 0x22), (0x80, 0)]).1.xcpCtoReqPacket 0 ≤ 64 ∧
    ((pollEnd RxState.init (memOf [])
        [(0x20, 2), (0x20, 0x11), (0x80, 0), (0x20, 0x22), (0x80, 0)]).1.xcpCtoRxInProgress
        = false →
      (pollEnd RxState.init (memOf [])
        [(0x20, 2), (0x20, 0x11), (0x80, 0), (0x20, 0x22), (0x80, 0)]).1.xcpCtoRxLength
        = (pollEnd RxState.init (memOf [])
        [(0x20, 2), (0x20, 0x11), (0x80, 0), (0x20, 0x22), (0x80, 0)]).1.xcpCtoReqPacket 0) :=
  ⟨by decide,
   (C15_receive_state_invariant 64 (memOf [])
      [(0x20, 2), (0x20, 0x11), (0x80, 0), (0x20, 0x22), (0x80, 0)] (by decide)).2.1,
   (C15_receive_state_invariant 64 (memOf [])
      [(0x20, 2), (0x20, 0x11), (0x80, 0), (0x20, 0x22), (0x80, 0)] (by decide)).2.2.2⟩

/-! ## C19: buffer bounds under well-formed length bytes -/

/-- C19: for every incoming byte stream and poll schedule in which each byte consumed as
a length byte lies in `1..MAX_PACKET_LEN`, in every poll made from the initial state:
every store into the assembly buffer is at an index in `0..MAX_PACKET_LEN`; the 8-bit
received counter never wraps (after a payload byte is stored at index `i` the counter is
`i` itself, and it never exceeds the declared length, which is a byte value); and every
bulk copy to the caller's buffer has a count between 1 and `MAX_PACKET_LEN`. -/
theorem C19_buffer_bounds (MAX_PACKET_LEN : Nat) (data : Nat → Nat) (ins : List (Nat × Nat))
    (h : lengthBytesOk MAX_PACKET_LEN RxState.init data ins = true) :
    ∀ r ∈ pollAll RxState.init data ins,
      (∀ i v, Event.store i v ∈ r.trace → i ≤ MAX_PACKET_LEN) ∧
      (∀ i v, Event.store i v ∈ r.trace → 1 ≤ i → r.st.xcpCtoRxLength = i) ∧
      (r.st.xcpCtoRxLength ≤ r.st.xcpCtoReqPacket 0 ∧ r.st.xcpCtoReqPacket 0 < 256) ∧
      (∀ n, Event.memCopy n ∈ r.trace → 1 ≤ n ∧ n ≤ MAX_PACKET_LEN) := by
  intro r hr
  obtain ⟨h1, h2, h3, h4, _, h6⟩ :=
    (run_safe MAX_PACKET_LEN ins RxState.init data (RxInv_init MAX_PACKET_LEN) h).2 r hr
  exact ⟨h1, h2, ⟨h4, h6⟩, h3⟩

/-- C19 on a stream carrying the packets `2, 0x11, 0x22` and `1, 0x33` with idle polls
in between, for a limit of 2. -/
theorem C19_buffer_bounds_witness :
    lengthBytesOk 2 RxState.init (memOf [])
      [(0x20, 2), (0x80, 0), (0x20, 0x11), (0x20, 0x22), (0x20, 1), (0x20, 0x33)] = true ∧
    ∀ r ∈ pollAll RxState.init (memOf [])
        [(0x20, 2), (0x80, 0), (0x20, 0x11), (0x20, 0x22), (0x20, 1), (0x20, 0x33)],
      (∀ i v, Event.store i v ∈ r.trace → i ≤ 2) ∧
      (∀ i v, Event.store i v ∈ r.trace → 1 ≤ i → r.st.xcpCtoRxLength = i) ∧
      (r.st.xcpCtoRxLength ≤ r.st.xcpCtoReqPacket 0 ∧ r.st.xcpCtoReqPacket 0 < 256) ∧
      (∀ n, Event.memCopy n ∈ r.trace → 1 ≤ n ∧ n ≤ 2) :=
  ⟨by decide,
   C19_buffer_bounds 2 (memOf [])
     [(0x20, 2), (0x80, 0), (0x20, 0x11), (0x20, 0x22), (0x20, 1), (0x20, 0x33)] (by decide)⟩

/-! ## C16: a declared length above the limit -/

/-- Byte number `j` of `bs` (counting from 0) is stored at index `k + j + 1`. -/
theorem payloadStores_mem (bs : List Nat) :
    ∀ (k j : Nat) (hj : j < bs.length), (k + j + 1, bs[j] % 256) ∈ payloadStores k bs := by
  induction bs with
  | nil => intro k j hj; simp at hj
  | cons b bs ih =>
    intro k j hj
    cases j with
    | zero => simp [payloadStores]
    | succ j =>
      simp only [payloadStores, List.mem_cons, List.getElem_cons_succ]
      right
      have := ih (k + 1) j (by simpa using hj)
      rwa [show k + 1 + j + 1 = k + (j + 1) + 1 by omega] at this

/-- The indices at which `payloadStores k bs` stores are `k+1, ..., k + len(bs)`. -/
theorem payloadStores_index (bs : List Nat) :
    ∀ (k : Nat) (s : Nat × Nat), s ∈ payloadStores k bs → k + 1 ≤ s.1 ∧ s.1 ≤ k + bs.length := by
  induction bs with
  | nil => intro k s h; simp [payloadStores] at h
  | cons b bs ih =>
    intro k s h
    simp only [payloadStores, List.mem_cons] at h
    rcases h with h | h
    · subst h; simp
    · have := ih (k + 1) s h
      simp only [List.length_cons]
      omega

/-- Collecting payload bytes of a packet of declared length `L <= 255` that do not yet
complete it: with `k` bytes received and `k + len(bs) < L`, every poll returns
`BLT_FALSE`, byte number `k + j` is stored at index `k + j`, the caller's buffer is not
touched, and afterwards the receiver is still collecting with `k + len(bs)` received. -/
theorem collect_prefix (L : Nat) (hL : L ≤ 255) :
    ∀ (bs : List Nat) (k : Nat) (st : RxState) (data : Nat → Nat) (ins : List (Nat × Nat)),
      k + bs.length < L → st.xcpCtoRxInProgress = true →
      st.xcpCtoRxLength = k → st.xcpCtoReqPacket 0 = L →
      ins.map Prod.snd = bs → (∀ x ∈ ins, rxReady x.1 = true) →
      (pollAll st data ins).map (fun r => r.ret) = List.replicate bs.length false ∧
      allStores (pollAll st data ins) = payloadStores k bs ∧
      (pollEnd st data ins).1.xcpCtoRxInProgress = true ∧
      (pollEnd st data ins).1.xcpCtoRxLength = k + bs.length ∧
      (pollEnd st data ins).1.xcpCtoReqPacket 0 = L ∧
      (pollEnd st data ins).2 = data := by
  intro bs
  induction bs with
  | nil =>
    intro k st data ins _ hp hlen h0 hins _
    have hins0 : ins = [] := List.map_eq_nil_iff.1 hins
    subst hins0
    simp [pollAll, pollEnd, allStores, payloadStores, hp, hlen, h0]
  | cons b bs ih =>
    intro k st data ins hk hp hlen h0 hins hrdy
    subst hlen
    simp only [List.length_cons] at hk
    match ins, hins, hrdy with
    | (sr, dr) :: ins, hins1, hrdy1 =>
      have hx : rxReady sr = true := hrdy1 (sr, dr) (List.mem_cons_self _ _)
      simp only [List.map_cons, List.cons.injEq] at hins1
      obtain ⟨hb, hins2⟩ := hins1
      subst hb
      have hmod : (st.xcpCtoRxLength + 1) % 256 = st.xcpCtoRxLength + 1 :=
        Nat.mod_eq_of_lt (by omega)
      have hl : (st.xcpCtoRxLength + 1) % 256 ≠ st.xcpCtoReqPacket 0 := by
        rw [hmod, h0]; omega
      have key := ih (st.xcpCtoRxLength + 1)
        { xcpCtoReqPacket := memStore st.xcpCtoReqPacket (st.xcpCtoRxLength + 1) (dr % 256)
          xcpCtoRxLength := (st.xcpCtoRxLength + 1) % 256
          xcpCtoRxInProgress := true } data ins (by omega) rfl hmod
        (by simp [memStore, h0]) hins2 (fun y hy => hrdy1 y (List.mem_cons_of_mem _ hy))
      obtain ⟨k1, k2, k3, k4, k5, k6⟩ := key
      have hstep := rx_middle_step st data sr dr hp hx hl
      have hpe : pollEnd st data ((sr, dr) :: ins)
          = pollEnd
              { xcpCtoReqPacket :=
                  memStore st.xcpCtoReqPacket (st.xcpCtoRxLength + 1) (dr % 256)
                xcpCtoRxLength := (st.xcpCtoRxLength + 1) % 256
                xcpCtoRxInProgress := true } data ins := by
        simp only [pollEnd, hstep]
      rw [hpe]
      refine ⟨?_, ?_, k3, ?_, k5, k6⟩
      · simp only [pollAll, hstep, List.map_cons, k1, List.length_cons, List.replicate_succ]
      · simp only [pollAll, hstep, allStores, storesOf, payloadStores, k2, List.cons_append,
          List.nil_append]
      · rw [k4, List.length_cons]; omega

theorem memStore_same (m : Nat → Nat) (idx v : Nat) : memStore m idx v idx = v := by
  simp [memStore]

theorem memStore_other (m : Nat → Nat) (idx v i : Nat) (h : i ≠ idx) :
    memStore m idx v i = m i := by
  simp [memStore, h]

/-- On the flat layout the code does what the region model says, as long as the store
of the poll is inside the array: from related statics, a poll returns the same value
and leaves related statics and the same caller buffer. -/
theorem flat_agrees (MAX : Nat) (st : RxState) (mem : Nat → Nat) (data : Nat → Nat)
    (sr dr : Nat) (hrel : FlatRel MAX st mem)
    (hin : st.xcpCtoRxInProgress = true → st.xcpCtoRxLength + 1 ≤ MAX) :
    (UartReceivePacketFlat MAX mem data sr dr).ret = (UartReceivePacket st data sr dr).ret ∧
    FlatRel MAX (UartReceivePacket st data sr dr).st
      (UartReceivePacketFlat MAX mem data sr dr).mem ∧
    (∀ i, (UartReceivePacketFlat MAX mem data sr dr).data i
      = (UartReceivePacket st data sr dr).data i) := by
  unfold FlatRel at hrel ⊢
  obtain ⟨h1, h2, h3⟩ := hrel
  cases hx : rxReady sr with
  | false =>
    have hflat : UartReceivePacketFlat MAX mem data sr dr
        = { ret := false, mem := mem, data := data } := by
      simp [UartReceivePacketFlat, UartReceiveByte, hx]
    rw [rx_idle st data sr dr hx, hflat]
    exact ⟨rfl, ⟨h1, h2, h3⟩, fun _ => rfl⟩
  | true =>
    cases hp : st.xcpCtoRxInProgress with
    | false =>
      rw [hp] at h3
      simp only [Bool.false_eq_true, if_false] at h3
      have hflat : UartReceivePacketFlat MAX mem data sr dr
          = { ret := false
              mem := memStore (memStore (memStore mem 0 (dr % 256)) (MAX + 2) 1) (MAX + 1) 0
              data := data } := by
        simp [UartReceivePacketFlat, UartReceiveByte, hx, h3]
      rw [rx_length_step st data sr dr hp hx, hflat]
      refine ⟨rfl, ⟨?_, ?_, ?_⟩, fun _ => rfl⟩
      · intro i hi
        dsimp only
        rw [memStore_other _ _ _ i (by omega), memStore_other _ _ _ i (by omega)]
        by_cases h0 : i = 0
        · rw [h0, memStore_same, memStore_same]
        · rw [memStore_other _ _ _ i h0, memStore_other _ _ _ i h0]; exact h1 i hi
      · dsimp only
        rw [memStore_same]
      · dsimp only
        rw [memStore_other _ _ _ _ (by omega), memStore_same]
        rfl
    | true =>
      rw [hp] at h3
      simp only [if_true] at h3
      have hk := hin hp
      have hflag : ¬ mem (MAX + 2) = 0 := by omega
      have hcnt : memStore mem (st.xcpCtoRxLength + 1) (dr % 256) (MAX + 1)
          = st.xcpCtoRxLength := by
        rw [memStore_other _ _ _ _ (by omega)]
        exact h2
      have hmem : ∀ i, i ≤ MAX →
          memStore (memStore mem (st.xcpCtoRxLength + 1) (dr % 256)) (MAX + 1)
            ((st.xcpCtoRxLength + 1) % 256) i
          = memStore st.xcpCtoReqPacket (st.xcpCtoRxLength + 1) (dr % 256) i := by
        intro i hi
        rw [memStore_other _ _ _ i (by omega)]
        by_cases hi2 : i = st.xcpCtoRxLength + 1
        · rw [hi2, memStore_same, memStore_same]
        · rw [memStore_other _ _ _ i hi2, memStore_other _ _ _ i hi2]; exact h1 i hi
      have hzero : memStore (memStore mem (st.xcpCtoRxLength + 1) (dr % 256)) (MAX + 1)
            ((st.xcpCtoRxLength + 1) % 256) 0 = st.xcpCtoReqPacket 0 := by
        rw [hmem 0 (by omega), memStore_other _ _ _ 0 (by omega)]
      have hnew : memStore (memStore mem (st.xcpCtoRxLength + 1) (dr % 256)) (MAX + 1)
            ((st.xcpCtoRxLength + 1) % 256) (MAX + 1) = (st.xcpCtoRxLength + 1) % 256 :=
        memStore_same _ _ _
      have hflat0 : UartReceivePacketFlat MAX mem data sr dr
          = if (st.xcpCtoRxLength + 1) % 256 = st.xcpCtoReqPacket 0 then
              { ret := true
                mem := memStore
                  (memStore (memStore mem (st.xcpCtoRxLength + 1) (dr % 256)) (MAX + 1)
                    ((st.xcpCtoRxLength + 1) % 256)) (MAX + 2) 0
                data := CpuMemCopy data
                  (memStore (memStore mem (st.xcpCtoRxLength + 1) (dr % 256)) (MAX + 1)
                    ((st.xcpCtoRxLength + 1) % 256)) 1 ((st.xcpCtoRxLength + 1) % 256) }
            else
              { ret := false
                mem := memStore (memStore mem (st.xcpCtoRxLength + 1) (dr % 256)) (MAX + 1)
                  ((st.xcpCtoRxLength + 1) % 256)
                data := data } := by
        simp only [UartReceivePacketFlat, UartReceiveByte, hx, hflag, if_false, if_true, h2]
        rw [hcnt, hnew, hzero]
      by_cases hl : (st.xcpCtoRxLength + 1) % 256 = st.xcpCtoReqPacket 0
      · rw [rx_last_step st data sr dr hp hx hl, hflat0, if_pos hl]
        refine ⟨rfl, ⟨?_, ?_, ?_⟩, ?_⟩
        · intro i hi
          dsimp only
          rw [memStore_other _ _ _ i (by omega)]
          exact hmem i hi
        · dsimp only
          rw [memStore_other _ _ _ _ (by omega)]
          exact hnew
        · dsimp only
          rw [memStore_same]
          rfl
        · intro i
          dsimp only
          unfold CpuMemCopy
          by_cases hi : i < (st.xcpCtoRxLength + 1) % 256
          · rw [if_pos hi, if_pos hi]
            have hle : 1 + i ≤ MAX := by
              have := Nat.mod_le (st.xcpCtoRxLength + 1) 256
              omega
            exact hmem (1 + i) hle
          · rw [if_neg hi, if_neg hi]
      · rw [rx_middle_step st data sr dr hp hx hl, hflat0, if_neg hl]
        refine ⟨rfl, ⟨?_, ?_, ?_⟩, fun _ => rfl⟩
        · intro i hi
          exact hmem i hi
        · exact hnew
        · dsimp only
          rw [memStore_other _ _ _ _ (by omega), memStore_other _ _ _ _ (by omega)]
          simpa using h3

/-- C16 (as stated) fails on the flat layout of the statics.  With a buffer limit of 2
and the length byte 5, the third payload byte is stored past the end of the array, in
the cell of the received counter; when that byte is 4 the counter becomes 5 and the poll
returns `BLT_TRUE` after three payload bytes, not five.  With the length byte 3 and the
third payload byte `0x33` the counter becomes 52 and the poll of payload byte number 3
returns `BLT_FALSE`. -/
theorem C16_counterexample :
    (pollFlat 2 (fun _ => 0) (memOf []) [(0x20, 5), (0x20, 0x11), (0x20, 0x22), (0x20, 4)]).map
      (fun r => r.ret) = [false, false, false, true] ∧
    (pollFlat 2 (fun _ => 0) (memOf [])
      [(0x20, 3), (0x20, 0x11), (0x20, 0x22), (0x20, 0x33)]).map (fun r => r.ret)
      = [false, false, false, false] ∧
    (pollFlat 2 (fun _ => 0) (memOf [])
      [(0x20, 3), (0x20, 0x11), (0x20, 0x22), (0x20, 0x33)]).map (fun r => r.mem (2 + 1))
      = [0, 1, 2, 52] := by
  decide

/-- C16 (amended): a declared length greater than `MAX_PACKET_LEN` is not rejected.  For
every length byte `L` with `MAX_PACKET_LEN < L <= 255` found while no packet is in
progress, followed by `MAX_PACKET_LEN` payload bytes `P` (one per poll): the poll of the
length byte puts the receiver in progress with declared length `L`; all these polls
return `BLT_FALSE` and leave the caller's buffer unchanged; payload byte number `k` is
stored at assembly-buffer index `k` for every `1 <= k <= MAX_PACKET_LEN`, all inside the
buffer; the receiver is then still collecting, with `MAX_PACKET_LEN` bytes received; and
the poll that finds the next payload byte stores it at index `MAX_PACKET_LEN + 1`,
outside the `MAX_PACKET_LEN + 1` slots of the buffer. -/
theorem C16_unguarded_until_bound (MAX_PACKET_LEN L : Nat) (P : List Nat) (st : RxState)
    (data : Nat → Nat) (ins : List (Nat × Nat)) (sr dr : Nat)
    (hL1 : MAX_PACKET_LEN < L) (hL2 : L ≤ 255) (hP : P.length = MAX_PACKET_LEN)
    (hst : st.xcpCtoRxInProgress = false)
    (hready : ∀ x ∈ ins, x.1 &&& UART_BIT_RXNE ≠ 0)
    (hins : ins.map Prod.snd = L :: P)
    (hsr : sr &&& UART_BIT_RXNE ≠ 0) :
    (∀ r, (pollAll st data ins).head? = some r →
      r.st.xcpCtoRxInProgress = true ∧ r.st.xcpCtoReqPacket 0 = L ∧ r.ret = false) ∧
    (pollAll st data ins).map (fun r => r.ret) = List.replicate (MAX_PACKET_LEN + 1) false ∧
    allStores (pollAll st data ins) = (0, L) :: payloadStores 0 P ∧
    (∀ k (hk : k < P.length), (k + 1, P[k] % 256) ∈ allStores (pollAll st data ins)) ∧
    (∀ s ∈ allStores (pollAll st data ins), s.1 ≤ MAX_PACKET_LEN) ∧
    ((pollEnd st data ins).1.xcpCtoRxInProgress = true ∧
      (pollEnd st data ins).1.xcpCtoRxLength = MAX_PACKET_LEN ∧
      (pollEnd st data ins).2 = data) ∧
    (pollThen st data ins sr dr).trace.take 3
      = [Event.readSR sr, Event.readDR dr, Event.store (MAX_PACKET_LEN + 1) (dr % 256)] := by
  have hrdy : ∀ x ∈ ins, rxReady x.1 = true :=
    fun x hx => (rxReady_eq_true_iff x.1).2 (hready x hx)
  have hx2 : rxReady sr = true := (rxReady_eq_true_iff sr).2 hsr
  match ins, hins, hrdy with
  | (sr0, dr0) :: ins, hins, hrdy =>
    have hx : rxReady sr0 = true := hrdy (sr0, dr0) (List.mem_cons_self _ _)
    simp only [List.map_cons, List.cons.injEq] at hins
    obtain ⟨hb, hins2⟩ := hins
    subst hb
    have hmodL : dr0 % 256 = dr0 := Nat.mod_eq_of_lt (by omega)
    have key := collect_prefix dr0 hL2 P 0
      { xcpCtoReqPacket := memStore st.xcpCtoReqPacket 0 (dr0 % 256)
        xcpCtoRxLength := 0
        xcpCtoRxInProgress := true } data ins (by omega) rfl rfl
      (by simp [memStore, hmodL]) hins2 (fun y hy => hrdy y (List.mem_cons_of_mem _ hy))
    obtain ⟨k1, k2, k3, k4, k5, k6⟩ := key
    rw [hmodL] at k1 k2 k3 k4 k5 k6
    have hstores : allStores (pollAll st data ((sr0, dr0) :: ins))
        = (0, dr0) :: payloadStores 0 P := by
      simp only [pollAll, rx_length_step st data sr0 dr0 hst hx, allStores, storesOf, hmodL,
        k2, List.cons_append, List.nil_append]
    have hend : pollEnd st data ((sr0, dr0) :: ins)
        = pollEnd { xcpCtoReqPacket := memStore st.xcpCtoReqPacket 0 dr0
                    xcpCtoRxLength := 0
                    xcpCtoRxInProgress := true } data ins := by
      simp only [pollEnd, rx_length_step st data sr0 dr0 hst hx, hmodL]
    refine ⟨?_, ?_, hstores, ?_, ?_, ?_, ?_⟩
    · intro r hr
      simp only [pollAll, rx_length_step st data sr0 dr0 hst hx, List.head?_cons,
        Option.some.injEq] at hr
      subst hr
      simp [memStore, hmodL]
    · simp only [pollAll, rx_length_step st data sr0 dr0 hst hx, List.map_cons, hmodL, k1]
      rw [hP, List.replicate_succ]
    · intro k hk
      rw [hstores]
      have := payloadStores_mem P 0 k hk
      simp only [Nat.zero_add] at this
      exact List.mem_cons_of_mem _ this
    · intro s hs
      rw [hstores, List.mem_cons] at hs
      rcases hs with hs | hs
      · subst hs; simp
      · have := payloadStores_index P 0 s hs
        omega
    · rw [hend]
      exact ⟨k3, by rw [k4]; omega, k6⟩
    · simp only [pollThen]
      rw [hend]
      have hlen : (pollEnd { xcpCtoReqPacket := memStore st.xcpCtoReqPacket 0 dr0
                             xcpCtoRxLength := 0
                             xcpCtoRxInProgress := true } data ins).1.xcpCtoRxLength
          = MAX_PACKET_LEN := by rw [k4]; omega
      by_cases hl : ((pollEnd { xcpCtoReqPacket := memStore st.xcpCtoReqPacket 0 dr0
                                xcpCtoRxLength := 0
                                xcpCtoRxInProgress := true } data ins).1.xcpCtoRxLength + 1)
            % 256
          = (pollEnd { xcpCtoReqPacket := memStore st.xcpCtoReqPacket 0 dr0
                       xcpCtoRxLength := 0
                       xcpCtoRxInProgress := true } data ins).1.xcpCtoReqPacket 0
      · rw [rx_last_step _ _ sr dr k3 hx2 hl, hlen]
        rfl
      · rw [rx_middle_step _ _ sr dr k3 hx2 hl, hlen]
        rfl

/-- C16 (amended) for a buffer limit of 2 and the length byte 5: two payload bytes go to
indices 1 and 2, the third is stored at index 3. -/
theorem C16_unguarded_until_bound_witness :
    (pollAll RxState.init (memOf []) [(0x20, 5), (0x20, 0x11), (0x20, 0x22)]).map
      (fun r => r.ret) = List.replicate (2 + 1) false ∧
    allStores (pollAll RxState.init (memOf []) [(0x20, 5), (0x20, 0x11), (0x20, 0x22)])
      = (0, 5) :: payloadStores 0 [0x11, 0x22] ∧
    (pollThen RxState.init (memOf []) [(0x20, 5), (0x20, 0x11), (0x20, 0x22)] 0x20 4).trace.take 3
      = [Event.readSR 0x20, Event.readDR 4, Event.store (2 + 1) (4 % 256)] :=
  ⟨(C16_unguarded_until_bound 2 5 [0x11, 0x22] RxState.init (memOf [])
      [(0x20, 5), (0x20, 0x11), (0x20, 0x22)] 0x20 4 (by decide) (by decide) rfl rfl
      (by decide) (by decide) (by decide)).2.1,
   (C16_unguarded_until_bound 2 5 [0x11, 0x22] RxState.init (memOf [])
      [(0x20, 5), (0x20, 0x11), (0x20, 0x22)] 0x20 4 (by decide) (by decide) rfl rfl
      (by decide) (by decide) (by decide)).2.2.1,
   (C16_unguarded_until_bound 2 5 [0x11, 0x22] RxState.init (memOf [])
      [(0x20, 5), (0x20, 0x11), (0x20, 0x22)] 0x20 4 (by decide) (by decide) rfl rfl
      (by decide) (by decide) (by decide)).2.2.2.2.2.2⟩

/-! ## C18: decoding a stream of packets -/

theorem Decodes_nil (st : RxState) (data : Nat → Nat) : Decodes st data [] [] [] := by
  simp [Decodes, pollAll]

/-- A poll that finds no byte adds nothing to what the polls after it decode. -/
theorem Decodes_idle (st : RxState) (data : Nat → Nat) (sr dr : Nat) (ins : List (Nat × Nat))
    (pl : List (List Nat)) (marks : List Bool) (hx : rxReady sr = false)
    (h : Decodes st data ins pl marks) : Decodes st data ((sr, dr) :: ins) pl marks := by
  obtain ⟨h1, h2, h3⟩ := h
  have hstep := rx_idle st data sr dr hx
  refine ⟨?_, ?_, ?_⟩
  · simp only [pollAll, hstep, List.filter_cons, Bool.false_eq_true, if_false]
    exact h1
  · intro x hmem
    simp only [pollAll, hstep, List.zip_cons_cons, List.mem_cons] at hmem
    rcases hmem with hmem | hmem
    · intro _; rw [hmem]
    · exact h2 x hmem
  · simp only [pollAll, hstep, List.zip_cons_cons, List.filter_cons, hx, Bool.false_eq_true,
      if_false]
    exact h3

/-- A poll that finds a byte and returns `BLT_FALSE`. -/
theorem Decodes_data_false (st : RxState) (data : Nat → Nat) (sr dr : Nat)
    (ins : List (Nat × Nat)) (pl : List (List Nat)) (marks : List Bool)
    (hx : rxReady sr = true) (hr : (UartReceivePacket st data sr dr).ret = false)
    (h : Decodes (UartReceivePacket st data sr dr).st (UartReceivePacket st data sr dr).data
      ins pl marks) :
    Decodes st data ((sr, dr) :: ins) pl (false :: marks) := by
  obtain ⟨h1, h2, h3⟩ := h
  refine ⟨?_, ?_, ?_⟩
  · simp only [pollAll, List.filter_cons, hr, Bool.false_eq_true, if_false]
    exact h1
  · intro x hmem
    simp only [pollAll, List.zip_cons_cons, List.mem_cons] at hmem
    rcases hmem with hmem | hmem
    · intro _; rw [hmem]; exact hr
    · exact h2 x hmem
  · simp only [pollAll, List.zip_cons_cons, List.filter_cons, hx, if_true, List.map_cons, hr,
      h3]

/-- A poll that finds a byte and returns `BLT_TRUE`. -/
theorem Decodes_data_true (st : RxState) (data : Nat → Nat) (sr dr : Nat)
    (ins : List (Nat × Nat)) (pl : List (List Nat)) (marks : List Bool)
    (hx : rxReady sr = true) (hr : (UartReceivePacket st data sr dr).ret = true)
    (h : Decodes (UartReceivePacket st data sr dr).st (UartReceivePacket st data sr dr).data
      ins pl marks) :
    Decodes st data ((sr, dr) :: ins) (delivered (UartReceivePacket st data sr dr) :: pl)
      (true :: marks) := by
  obtain ⟨h1, h2, h3⟩ := h
  refine ⟨?_, ?_, ?_⟩
  · simp only [pollAll, List.filter_cons, hr, if_true, List.map_cons, h1]
  · intro x hmem
    simp only [pollAll, List.zip_cons_cons, List.mem_cons] at hmem
    rcases hmem with hmem | hmem
    · intro hx2; rw [hmem] at hx2; simp [hx] at hx2
    · exact h2 x hmem
  · simp only [pollAll, List.zip_cons_cons, List.filter_cons, hx, if_true, List.map_cons, hr,
      h3]

/-- The payload handed over by the poll that stores the last byte of `P`. -/
theorem delivered_last (st : RxState) (data : Nat → Nat) (sr b : Nat) (P : List Nat)
    (hp : st.xcpCtoRxInProgress = true) (hx : rxReady sr = true)
    (h0 : st.xcpCtoReqPacket 0 = P.length) (hk : st.xcpCtoRxLength + 1 = P.length)
    (hL : P.length ≤ 255) (hkl : st.xcpCtoRxLength < P.length)
    (hb : b = P[st.xcpCtoRxLength]) (hb256 : b < 256)
    (hbuf : ∀ i, i < st.xcpCtoRxLength → st.xcpCtoReqPacket (i + 1) = P.getD i 0) :
    (UartReceivePacket st data sr b).ret = true ∧
    (UartReceivePacket st data sr b).st.xcpCtoRxInProgress = false ∧
    delivered (UartReceivePacket st data sr b) = P := by
  have hmod : (st.xcpCtoRxLength + 1) % 256 = st.xcpCtoRxLength + 1 :=
    Nat.mod_eq_of_lt (by omega)
  have hl : (st.xcpCtoRxLength + 1) % 256 = st.xcpCtoReqPacket 0 := by
    rw [hmod, h0, hk]
  rw [rx_last_step st data sr b hp hx hl]
  refine ⟨rfl, rfl, ?_⟩
  simp only [delivered, hmod, Nat.mod_eq_of_lt hb256]
  apply List.ext_getElem
  · simp [hk]
  · intro i h1 h2
    simp only [List.getElem_map, List.getElem_range, CpuMemCopy]
    rw [if_pos (by omega), Nat.add_comm 1 i,
      memStore_payload _ P st.xcpCtoRxLength b hkl hb hbuf i (by omega),
      List.getD_eq_getElem _ _ h2]

/-- Decoding from either phase.  With no packet in progress and the bytes of the packets
`ps` still to come, the polls decode `ps`.  With the packet `P` in progress, its first
`xcpCtoRxLength` bytes in the assembly buffer and `n + 1` still to come, followed by the
bytes of `ps`, the polls decode `P` and then `ps`.  Polls that find no byte may occur
anywhere. -/
theorem decode_run (ins : List (Nat × Nat)) :
    (∀ (ps : List (List Nat)) (st : RxState) (data : Nat → Nat),
      (∀ p ∈ ps, 1 ≤ p.length ∧ p.length ≤ 255 ∧ ∀ b ∈ p, b < 256) →
      st.xcpCtoRxInProgress = false →
      (ins.filter (fun x => rxReady x.1)).map Prod.snd = wire ps →
      Decodes st data ins ps (lastMarks ps)) ∧
    (∀ (P : List Nat) (ps : List (List Nat)) (n : Nat) (st : RxState) (data : Nat → Nat),
      P.length ≤ 255 → (∀ b ∈ P, b < 256) →
      (∀ p ∈ ps, 1 ≤ p.length ∧ p.length ≤ 255 ∧ ∀ b ∈ p, b < 256) →
      st.xcpCtoRxLength + (n + 1) = P.length → st.xcpCtoRxInProgress = true →
      st.xcpCtoReqPacket 0 = P.length →
      (∀ i, i < st.xcpCtoRxLength → st.xcpCtoReqPacket (i + 1) = P.getD i 0) →
      (ins.filter (fun x => rxReady x.1)).map Prod.snd = P.drop st.xcpCtoRxLength ++ wire ps →
      Decodes st data ins (P :: ps) (List.replicate n false ++ true :: lastMarks ps)) := by
  induction ins with
  | nil =>
    constructor
    · intro ps st data _ _ hins
      cases ps with
      | nil => exact Decodes_nil st data
      | cons p ps => simp [wire] at hins
    · intro P ps n st data _ _ _ hk _ _ _ hins
      have hkl : st.xcpCtoRxLength < P.length := by omega
      rw [List.drop_eq_getElem_cons hkl] at hins
      simp at hins
      omega
  | cons x ins ih =>
    obtain ⟨ihA, ihB⟩ := ih
    obtain ⟨sr, dr⟩ := x
    constructor
    · intro ps st data hps hst hins
      cases hx : rxReady sr with
      | false =>
        simp only [List.filter_cons, hx, Bool.false_eq_true, if_false] at hins
        exact Decodes_idle st data sr dr ins ps _ hx (ihA ps st data hps hst hins)
      | true =>
        simp only [List.filter_cons, hx, if_true, List.map_cons] at hins
        cases ps with
        | nil => simp [wire] at hins
        | cons p ps =>
          simp only [wire, List.cons.injEq] at hins
          obtain ⟨hdr, hins2⟩ := hins
          obtain ⟨hp1, hp2, hp3⟩ := hps p (List.mem_cons_self _ _)
          have hps2 : ∀ q ∈ ps, 1 ≤ q.length ∧ q.length ≤ 255 ∧ ∀ b ∈ q, b < 256 :=
            fun q hq => hps q (List.mem_cons_of_mem _ hq)
          obtain ⟨n, hn⟩ : ∃ n, p.length = n + 1 := ⟨p.length - 1, by omega⟩
          have hmod : dr % 256 = p.length := by rw [hdr]; exact Nat.mod_eq_of_lt (by omega)
          have hstep := rx_length_step st data sr dr hst hx
          have key : Decodes (UartReceivePacket st data sr dr).st
              (UartReceivePacket st data sr dr).data ins (p :: ps)
              (List.replicate n false ++ true :: lastMarks ps) := by
            rw [hstep]
            exact ihB p ps n _ data hp2 hp3 hps2 (by simp [hn]) rfl (by simp [memStore, hmod])
              (by intro i hi; simp at hi) (by simpa using hins2)
          have hfalse : (UartReceivePacket st data sr dr).ret = false := by rw [hstep]
          have := Decodes_data_false st data sr dr ins _ _ hx hfalse key
          simpa [lastMarks, hn, List.replicate_succ] using this
    · intro P ps n st data hL hP hps hk hp h0 hbuf hins
      cases hx : rxReady sr with
      | false =>
        simp only [List.filter_cons, hx, Bool.false_eq_true, if_false] at hins
        exact Decodes_idle st data sr dr ins _ _ hx
          (ihB P ps n st data hL hP hps hk hp h0 hbuf hins)
      | true =>
        have hkl : st.xcpCtoRxLength < P.length := by omega
        simp only [List.filter_cons, hx, if_true, List.map_cons] at hins
        rw [List.drop_eq_getElem_cons hkl] at hins
        simp only [List.cons_append, List.cons.injEq] at hins
        obtain ⟨hdr, hins2⟩ := hins
        have hb256 : dr < 256 := hP dr (hdr ▸ List.getElem_mem hkl)
        have hmod : (st.xcpCtoRxLength + 1) % 256 = st.xcpCtoRxLength + 1 :=
          Nat.mod_eq_of_lt (by omega)
        cases n with
        | zero =>
          obtain ⟨d1, d2, d3⟩ := delivered_last st data sr dr P hp hx h0 (by omega) hL hkl hdr
            hb256 hbuf
          rw [List.drop_of_length_le (by omega), List.nil_append] at hins2
          have key := ihA ps (UartReceivePacket st data sr dr).st
            (UartReceivePacket st data sr dr).data hps d2 hins2
          have := Decodes_data_true st data sr dr ins _ _ hx d1 key
          rw [d3] at this
          simpa using this
        | succ m =>
          have hl : (st.xcpCtoRxLength + 1) % 256 ≠ st.xcpCtoReqPacket 0 := by
            rw [hmod, h0]; omega
          have hstep := rx_middle_step st data sr dr hp hx hl
          have key : Decodes (UartReceivePacket st data sr dr).st
              (UartReceivePacket st data sr dr).data ins (P :: ps)
              (List.replicate m false ++ true :: lastMarks ps) := by
            rw [hstep]
            refine ihB P ps m _ data hL hP hps ?_ rfl ?_ ?_ ?_
            · simp only [hmod]; omega
            · simp [memStore, h0]
            · intro i hi
              simp only [hmod] at hi
              simp only [Nat.mod_eq_of_lt hb256]
              exact memStore_payload _ P st.xcpCtoRxLength dr hkl hdr hbuf i hi
            · simp only [hmod]; exact hins2
          have hfalse : (UartReceivePacket st data sr dr).ret = false := by rw [hstep]
          have := Decodes_data_false st data sr dr ins _ _ hx hfalse key
          simpa [List.replicate_succ] using this

/-- C18: starting from the initial receiver state, for every list of payloads
`p1, ..., pn` of bytes, each with `1 <= len(pi) <= MAX_PACKET_LEN` (and `len(pi)` a byte
value), and every poll schedule `ins` whose polls that find a byte carry, in order, the
bytes of `[len(p1)] ++ p1 ++ ... ++ [len(pn)] ++ pn`, with any number of polls that find
no byte anywhere: the polls that return `BLT_TRUE` are exactly `n`, the `i`-th leaving
`pi` in the first `len(pi)` positions of the caller's buffer; every poll without a byte
returns `BLT_FALSE`; and a poll that finds a byte returns `BLT_TRUE` exactly when that
byte is the last byte of a payload. -/
theorem C18_stream_decoding (MAX_PACKET_LEN : Nat) (ps : List (List Nat))
    (data : Nat → Nat) (ins : List (Nat × Nat))
    (hlen : ∀ p ∈ ps, 1 ≤ p.length ∧ p.length ≤ MAX_PACKET_LEN)
    (hbytes : ∀ p ∈ ps, p.length < 256 ∧ ∀ b ∈ p, b < 256)
    (hins : (ins.filter (fun x => x.1 &&& UART_BIT_RXNE != 0)).map Prod.snd = wire ps) :
    ((pollAll RxState.init data ins).filter (fun r => r.ret)).map delivered = ps ∧
    ((pollAll RxState.init data ins).filter (fun r => r.ret)).length = ps.length ∧
    (∀ x ∈ ins.zip (pollAll RxState.init data ins),
      x.1.1 &&& UART_BIT_RXNE = 0 → x.2.ret = false) ∧
    ((ins.zip (pollAll RxState.init data ins)).filter
        (fun x => x.1.1 &&& UART_BIT_RXNE != 0)).map (fun x => x.2.ret) = lastMarks ps := by
  have hps : ∀ p ∈ ps, 1 ≤ p.length ∧ p.length ≤ 255 ∧ ∀ b ∈ p, b < 256 := by
    intro p hp
    have h1 := hlen p hp
    have h2 := hbytes p hp
    exact ⟨h1.1, by omega, h2.2⟩
  obtain ⟨d1, d2, d3⟩ := (decode_run ins).1 ps RxState.init data hps rfl hins
  refine ⟨d1, ?_, ?_, d3⟩
  · have := congrArg List.length d1
    simpa using this
  · intro x hx h0
    exact d2 x hx ((rxReady_eq_false_iff _).2 h0)

/-- C18 for the packets `[0x11, 0x22]` and `[0x33]` with idle polls before, inside and
after them. -/
theorem C18_stream_decoding_witness :
    ((pollAll RxState.init (memOf [])
        [(0x80, 0), (0x20, 2), (0x20, 0x11), (0x80, 0), (0x80, 0), (0x20, 0x22), (0x20, 1),
         (0x80, 0), (0x20, 0x33), (0x80, 0)]).filter (fun r => r.ret)).map delivered
      = [[0x11, 0x22], [0x33]] ∧
    ((pollAll RxState.init (memOf [])
        [(0x80, 0), (0x20, 2), (0x20, 0x11), (0x80, 0), (0x80, 0), (0x20, 0x22), (0x20, 1),
         (0x80, 0), (0x20, 0x33), (0x80, 0)]).filter (fun r => r.ret)).length
      = [[0x11, 0x22], [0x33]].length :=
  ⟨(C18_stream_decoding 64 [[0x11, 0x22], [0x33]] (memOf [])
      [(0x80, 0), (0x20, 2), (0x20, 0x11), (0x80, 0), (0x80, 0), (0x20, 0x22), (0x20, 1),
       (0x80, 0), (0x20, 0x33), (0x80, 0)] (by decide) (by decide) (by decide)).1,
   (C18_stream_decoding 64 [[0x11, 0x22], [0x33]] (memOf [])
      [(0x80, 0), (0x20, 2), (0x20, 0x11), (0x80, 0), (0x80, 0), (0x20, 0x22), (0x20, 1),
       (0x80, 0), (0x20, 0x33), (0x80, 0)] (by decide) (by decide) (by decide)).2.1⟩

end OpenBLT
